import Mathlib

/-! The control core of fbpad, a framebuffer virtual terminal.

A shallow embedding of `fbpad.c` and theorems about it.

Conventions of the embedding.

* The file-local statics of `fbpad.c` (`tops`, `ctag`, `ltag`, `exitit`, `hidden`, `locked`,
  `pass`, `passlen`, `cmdmode`, `histpos`, and the `fd` field of `terms`) are the fields of
  one record, `World`, which every function takes and returns.
* C arrays are total functions on `Nat`. A read at an index beyond the declared bound
  yields the value of the function there, on which nothing is assumed. The source has
  undefined behaviour and may fault on such a read, so the value is only one outcome
  of it. The theorems that state that `directkey` or `poll_all` returns on an
  arbitrary input, and those on the history offset and the passcode length after
  runs of `directkey`, are therefore stated under the hypotheses that keep every
  index within bounds: the display-cursor predicate `cursor_ok` on the state and
  `esc_nul` false on the input, NUL after the escape byte being the one input on which
  the source indexes `tops` and `terms` past their end.
* The flags `exitit`, `hidden`, `locked`, `cmdmode` and the arguments `show`, `save`, `load`
  of `term_switch` only ever hold 0 or 1 and are `Bool`. Slot and tag indices are `Nat`.
  `histpos` and character values are `Int`; the results of the `int` additions and
  subtractions of the source (`histpos + pad_rows() / 2`, `histpos - pad_rows() / 2`,
  `pad_rows() - 1`) are wrapped to 32 bits by `wrap_int`.
* The constants of `config.h` (`TAGS`, `TAGS_SAVED`, `ESC`, `PASS`, `SHELL`, `MAIL`, `EDITOR`,
  `NHIST`, the colors) and the platform choice of whether `char` is signed are the fields
  of `Config`. The three render modes of `fbpad.h` are the constructors of `Flag`.
* The terminal engine (`term.c`, `pad.c`, `scrsnap.c`) is outside `fbpad.c`. Each call of
  an engine verb is recorded, in order, in `World.trace`. The results the engine hands
  back are read from oracle lists held in the world: the outcomes of the coming reads of
  descriptor 0 (`stdin`), of the coming `scr_load` calls (`loads`) and the descriptors
  the coming `term_exec` calls attach (`execs`).
-/

namespace Fbpad

/-- Render mode handed to `term_load` (the three `TERM_*` constants of `fbpad.h`). -/
inductive Flag where
  | TERM_HIDDEN
  | TERM_VISIBLE
  | TERM_REDRAW
  deriving DecidableEq, Repr

/-- One call of an engine verb, with its arguments. -/
inductive Event where
  | scr_snap (idx : Nat)
  | term_save (idx : Nat)
  | scr_load (idx : Nat)
  | term_load (idx : Nat) (flags : Flag)
  | term_exec (args : List String)
  | term_send (c : Int)
  | term_hist (pos : Int)
  | term_screenshot
  | term_read
  | scr_free (idx : Nat)
  | term_end
  | pad_put (ch : Int) (r : Int) (c : Int) (fg : Int) (bg : Int)
  | fb_cmap
  | reldisp
  deriving DecidableEq, Repr

/-- The compile-time configuration: `config.h` and the signedness of `char`. -/
structure Config where
  /-- The characters of `TAGS`, terminator not included. -/
  tags : List Int
  /-- The characters of `TAGS_SAVED`, terminator not included. -/
  tags_saved : List Int
  /-- The escape byte `ESC`. -/
  ESC : Int
  /-- The passcode `PASS`: `none` for a null pointer, else its characters. -/
  PASS : Option (List Int)
  SHELL : List String
  MAIL : List String
  EDITOR : List String
  NHIST : Int
  /-- The value returned by `pad_rows()`. -/
  pad_rows : Int
  FGCOLOR : Int
  BGCOLOR : Int
  /-- Whether plain `char` is a signed type on the platform. -/
  char_signed : Bool

/-- The statics of `fbpad.c`, the engine call trace and the oracles. -/
structure World where
  /-- Field `terms[i].fd`: zero when slot `i` is closed. -/
  termfd : Nat → Int
  tops : Nat → Nat
  ctag : Nat
  ltag : Nat
  exitit : Bool
  hidden : Bool
  locked : Bool
  pass : Nat → Int
  passlen : Nat
  cmdmode : Bool
  histpos : Int
  /-- The slot the engine verbs without a slot argument act on. -/
  active : Nat
  /-- Engine calls made so far, oldest first. -/
  trace : List Event
  /-- Outcomes of the coming reads of descriptor 0: `none` is a failed read. -/
  stdin : List (Option Nat)
  /-- Return values (as truth values) of the coming `scr_load` calls. -/
  loads : List Bool
  /-- Descriptors attached by the coming `term_exec` calls (0: the spawn failed). -/
  execs : List Int

/-- The macro `NTAGS`: `sizeof(tags) - 1`. -/
def NTAGS (cfg : Config) : Nat := cfg.tags.length

/-- The macro `NTERMS`: `NTAGS * 2`. -/
def NTERMS (cfg : Config) : Nat := NTAGS cfg * 2

/-- The size `sizeof(pass)` of the passcode buffer. -/
def PASS_SIZE : Nat := 1024

/-- The macro `TERMOPEN(i)`: `terms[i].fd` is nonzero. -/
def TERMOPEN (s : World) (i : Nat) : Bool := s.termfd i != 0

/-- Conversion of an `int` to `char` and back to `int`. -/
def to_char (cfg : Config) (c : Int) : Int :=
  let v := c % 256
  if cfg.char_signed && decide (128 ≤ v) then v - 256 else v

/-- The call `strchr(str, c)` as the offset of the match: the terminator is searched too. -/
def strchr (cfg : Config) (str : List Int) (c : Int) : Option Nat :=
  let k := (str ++ [0]).indexOf (to_char cfg c)
  if k ≤ str.length then some k else none

/-- The macro `TERMSNAP(i)`: `strchr(TAGS_SAVED, tags[i % NTAGS])` is not null. -/
def TERMSNAP (cfg : Config) (i : Nat) : Bool :=
  (strchr cfg cfg.tags_saved (cfg.tags.getD (i % NTAGS cfg) 0)).isSome

/-- The function `isprint` in the C locale (fbpad never calls `setlocale`). -/
def isprint (c : Int) : Bool := decide (32 ≤ c) && decide (c ≤ 126)

/-- Array store `a[i] = v`. -/
def store {α : Type} (a : Nat → α) (i : Nat) (v : α) : Nat → α :=
  fun j => if j = i then v else a j

/-- The value a 32-bit `int` holds after an addition or subtraction whose exact
result is `x`: `x` wrapped into the range from `-2^31` to `2^31 - 1`. -/
def wrap_int (x : Int) : Int := (x + 2147483648) % 4294967296 - 2147483648

/-- Records one engine call. -/
def emit (s : World) (e : Event) : World :=
  { s with trace := s.trace ++ [e] }

/-- Modelled from the spec: the engine verb `snapshot-save(slot)` (`scr_snap`), which
is not in `fbpad.c`; it touches no static of `fbpad.c`. -/
def scr_snap (s : World) (i : Nat) : World := emit s (Event.scr_snap i)

/-- Modelled from the spec: the engine verb `persist(slot)` (`term_save`). -/
def term_save (s : World) (i : Nat) : World := emit s (Event.term_save i)

/-- Modelled from the spec: the engine verb `snapshot-load(slot)` (`scr_load`); its
return value is the next oracle entry, false when none is left. -/
def scr_load (s : World) (i : Nat) : Bool × World :=
  match s.loads with
  | [] => (false, emit s (Event.scr_load i))
  | r :: rest => (r, { emit s (Event.scr_load i) with loads := rest })

/-- Modelled from the spec: the engine verb `activate(slot, mode)` (`term_load`); it
makes the slot the one the engine acts on. -/
def term_load (s : World) (i : Nat) (flags : Flag) : World :=
  { emit s (Event.term_load i flags) with active := i }

/-- Modelled from the spec: the engine verb `spawn(slot, argv)` (`term_exec`); it
attaches a stream handle to the active slot, the next oracle entry. -/
def term_exec (s : World) (args : List String) : World :=
  match s.execs with
  | [] => { emit s (Event.term_exec args) with termfd := store s.termfd s.active 0 }
  | f :: rest =>
    { emit s (Event.term_exec args) with termfd := store s.termfd s.active f, execs := rest }

/-- Modelled from the spec: the engine verb `send-byte(slot, byte)` (`term_send`). -/
def term_send (s : World) (c : Int) : World := emit s (Event.term_send c)

/-- Modelled from the spec: the engine verb `scroll-history(slot, offset)`. -/
def term_hist (s : World) (pos : Int) : World := emit s (Event.term_hist pos)

/-- Modelled from the spec: the engine verb `screenshot()`. -/
def term_screenshot (s : World) : World := emit s Event.term_screenshot

/-- Modelled from the spec: the engine verb `read-available(slot)` (`term_read`). -/
def term_read (s : World) : World := emit s Event.term_read

/-- Modelled from the spec: release of the screen resources of a slot (`scr_free`). -/
def scr_free (s : World) (i : Nat) : World := emit s (Event.scr_free i)

/-- Modelled from the spec: the engine verb `teardown(slot)` (`term_end`); the active
slot is closed. -/
def term_end (s : World) : World :=
  { emit s Event.term_end with termfd := store s.termfd s.active 0 }

/-- Modelled from the spec: one character cell drawn by the display surface. -/
def pad_put (s : World) (ch r c fg bg : Int) : World := emit s (Event.pad_put ch r c fg bg)

/-- Function `readchar`: one read of descriptor 0; the byte read goes through a `char`. -/
def readchar (cfg : Config) (s : World) : Int × World :=
  match s.stdin with
  | [] => (-1, s)
  | none :: rest => (-1, { s with stdin := rest })
  | some b :: rest => (to_char cfg (b : Int), { s with stdin := rest })

/-- Function `cterm`: the live slot. -/
def cterm (cfg : Config) (s : World) : Nat :=
  s.tops s.ctag * NTAGS cfg + s.ctag

/-- Function `term_switch(oidx, nidx, show, save, load)`. -/
def term_switch (cfg : Config) (s : World) (oidx nidx : Nat) (show_ save load : Bool) :
    World :=
  let flags := if show_ then (if load then Flag.TERM_REDRAW else Flag.TERM_VISIBLE)
    else Flag.TERM_HIDDEN
  let s1 := if save && TERMOPEN s oidx && TERMSNAP cfg oidx then scr_snap s oidx else s
  let s2 := term_save s1 oidx
  let r := if show_ && load && TERMOPEN s2 nidx && TERMSNAP cfg nidx then
      let q := scr_load s2 nidx
      (if q.1 then Flag.TERM_REDRAW else Flag.TERM_VISIBLE, q.2)
    else (flags, s2)
  let s3 := term_load r.2 nidx r.1
  if show_ && load then { s3 with histpos := 0 } else s3

/-- Function `showterm(n)`. -/
def showterm (cfg : Config) (s : World) (n : Nat) : World :=
  if cterm cfg s = n ∨ s.cmdmode = true then s
  else
    let s1 := if s.ctag ≠ n % NTAGS cfg then { s with ltag := s.ctag } else s
    let s2 := term_switch cfg s1 (cterm cfg s1) n (!s1.hidden) (!s1.hidden) (!s1.hidden)
    let s3 := { s2 with ctag := n % NTAGS cfg }
    { s3 with tops := store s3.tops s3.ctag (n / NTAGS cfg) }

/-- Function `showtag(n)`. For `n` not below `NTAGS` the source reads `tops[n]` past the
end of the array, and the slot index it passes on can lie past the end of `terms`:
undefined behaviour, of which the value computed here is one outcome (a fault is
another). -/
def showtag (cfg : Config) (s : World) (n : Nat) : World :=
  showterm cfg s (s.tops n * NTAGS cfg + n)

/-- Function `mainterm`: the live slot when it is open, else null. -/
def mainterm (cfg : Config) (s : World) : Option Nat :=
  if TERMOPEN s (cterm cfg s) then some (cterm cfg s) else none

/-- Function `exec_cmd(args)`. -/
def exec_cmd (cfg : Config) (s : World) (args : List String) : World :=
  if (mainterm cfg s).isNone then term_exec s args else s

/-- Function `altterm(n)`. -/
def altterm (cfg : Config) (n : Nat) : Nat :=
  if n < NTAGS cfg then n + NTAGS cfg else n - NTAGS cfg

/-- The loop of `nextterm`: `fuel` bounds the number of evaluations of the loop
condition, and `none` is returned when it is used up. -/
def nextterm_loop (cfg : Config) (s : World) : Nat → Nat → Option World
  | 0, _ => none
  | fuel + 1, n =>
    if n = cterm cfg s then some s
    else if TERMOPEN s n then some (showterm cfg s n)
    else nextterm_loop cfg s fuel ((n + 1) % NTERMS cfg)

/-- Function `nextterm`. The loop variable runs through the residues modulo `NTERMS`, so a
loop that has not ended after `NTERMS` tests of its condition never ends: `none`. -/
def nextterm (cfg : Config) (s : World) : Option World :=
  nextterm_loop cfg s (NTERMS cfg) ((cterm cfg s + 1) % NTERMS cfg)

/-- The body of the `for` loop of `showtags` for tag `i`, drawn at column `6 + 3 * i`. -/
def showtags_tag (cfg : Config) (s : World) (i : Nat) : World :=
  let colors : List Int := [15, 4, 2]
  let r := wrap_int (cfg.pad_rows - 1)
  let c : Int := 6 + 3 * (i : Int)
  let nt := (if TERMOPEN s i then 1 else 0) + (if TERMOPEN s (altterm cfg i) then 1 else 0)
  let s1 := pad_put s (if i = s.ctag then 40 else 32) r c cfg.FGCOLOR cfg.BGCOLOR
  let s2 := if TERMSNAP cfg i then
      pad_put s1 (cfg.tags.getD i 0) r (c + 1) (if nt = 0 then cfg.BGCOLOR else colors.getD nt 0) 15
    else pad_put s1 (cfg.tags.getD i 0) r (c + 1) (colors.getD nt 0) cfg.BGCOLOR
  pad_put s2 (if i = s.ctag then 41 else 32) r (c + 2) cfg.FGCOLOR cfg.BGCOLOR

/-- Function `showtags`: the legend `TAGS: ` and one bracketed cell per tag. -/
def showtags (cfg : Config) (s : World) : World :=
  let r := wrap_int (cfg.pad_rows - 1)
  let s1 := pad_put s 84 r 0 cfg.FGCOLOR cfg.BGCOLOR
  let s2 := pad_put s1 65 r 1 cfg.FGCOLOR cfg.BGCOLOR
  let s3 := pad_put s2 71 r 2 cfg.FGCOLOR cfg.BGCOLOR
  let s4 := pad_put s3 83 r 3 cfg.FGCOLOR cfg.BGCOLOR
  let s5 := pad_put s4 58 r 4 cfg.FGCOLOR cfg.BGCOLOR
  let s6 := pad_put s5 32 r 5 cfg.FGCOLOR cfg.BGCOLOR
  (List.range (NTAGS cfg)).foldl (showtags_tag cfg) s6

/-- The test `strcmp(str, buf + i) == 0` for a string given by its characters. -/
def strcmp_eq : List Int → (Nat → Int) → Nat → Bool
  | [], buf, i => buf i == 0
  | c :: cs, buf, i => if c = 0 then buf i == 0 else (buf i == c && strcmp_eq cs buf (i + 1))

/-- The last two statements of `directkey`: `histpos = 0` and the forwarding of `c`. -/
def directkey_send (cfg : Config) (s : World) (c : Int) : World :=
  let s1 := { s with histpos := 0 }
  if c ≠ -1 ∧ (mainterm cfg s1).isSome then term_send s1 c else s1

/-- The `switch` of `directkey` on the byte `c` read after the escape byte; `Int.tdiv`
is the truncating division of C and `wrap_int` the 32-bit result of the `int` sum or
difference. In the default case `strchr` also finds the terminator of `tags`, for the
byte NUL, and `showtag` is then called with `NTAGS`. -/
def directkey_esc (cfg : Config) (s : World) (c : Int) : Option World :=
  if c = 99 then some (exec_cmd cfg s cfg.SHELL)
  else if c = 109 then some (exec_cmd cfg s cfg.MAIL)
  else if c = 101 then some (exec_cmd cfg s cfg.EDITOR)
  else if c = 106 ∨ c = 107 then some (showterm cfg s (altterm cfg (cterm cfg s)))
  else if c = 111 then some (showtag cfg s s.ltag)
  else if c = 112 then some (showtags cfg s)
  else if c = 9 then nextterm cfg s
  else if c = 17 then some { s with exitit := true }
  else if c = 115 then some (term_screenshot s)
  else if c = 121 then some (term_switch cfg s (cterm cfg s) (cterm cfg s) true false true)
  else if c = 12 then some { s with locked := true, passlen := 0 }
  else if c = 44 then
    let s1 := { s with
      histpos := min cfg.NHIST (wrap_int (s.histpos + Int.tdiv cfg.pad_rows 2)) }
    some (term_hist s1 s1.histpos)
  else if c = 46 then
    let s1 := { s with histpos := max 0 (wrap_int (s.histpos - Int.tdiv cfg.pad_rows 2)) }
    some (term_hist s1 s1.histpos)
  else
    match strchr cfg cfg.tags c with
    | some k => some (showtag cfg s k)
    | none =>
      let s1 := if (mainterm cfg s).isSome then term_send s cfg.ESC else s
      some (directkey_send cfg s1 c)

/-- The locked-mode block of `directkey` on the byte `c` just read. -/
def directkey_locked (cfg : Config) (s : World) (c : Int) : World :=
  if c = 13 then
    let s1 := { s with pass := store s.pass s.passlen 0 }
    let s2 := if strcmp_eq (cfg.PASS.getD []) s1.pass 0 then { s1 with locked := false }
      else s1
    { s2 with passlen := 0 }
  else if isprint c && decide (s.passlen + 1 < PASS_SIZE) then
    { s with pass := store s.pass s.passlen c, passlen := s.passlen + 1 }
  else s

/-- Function `directkey`: one run of the input dispatcher. -/
def directkey (cfg : Config) (s0 : World) : Option World :=
  let c := (readchar cfg s0).1
  let s := (readchar cfg s0).2
  if cfg.PASS.isSome && s.locked then some (directkey_locked cfg s c)
  else if c = cfg.ESC then directkey_esc cfg (readchar cfg s).2 (readchar cfg s).1
  else some (directkey_send cfg s c)

/-- Function `temp_switch(termid)`. -/
def temp_switch (cfg : Config) (s : World) (termid : Nat) : World :=
  if termid ≠ cterm cfg s then term_switch cfg s (cterm cfg s) termid false false false
  else s

/-- Function `switch_back(termid)`. -/
def switch_back (cfg : Config) (s : World) (termid : Nat) : World :=
  if termid ≠ cterm cfg s then term_switch cfg s termid (cterm cfg s) true false false
  else s

/-- The bit `POLLIN` of `poll.h`. -/
def POLLIN : Nat := 1

/-- The macro `POLLFLAGS`: `POLLIN | POLLHUP | POLLERR | POLLNVAL`, that is `1 | 16 | 8 | 32`. -/
def POLLFLAGS : Nat := 57

/-- What one call of `poll` hands back. -/
structure PollResult where
  /-- The return value of `poll`. -/
  ret : Int
  /-- Field `ufds[0].revents`: the controlling input. -/
  revents0 : Nat
  /-- The `revents` of the entry built for slot `i`. -/
  revents : Nat → Nat

/-- The body of the second `for` loop of `poll_all`, for the entry of slot `i`. -/
def poll_slot (cfg : Config) (s : World) (rev : Nat) (i : Nat) : World :=
  if rev &&& POLLFLAGS = 0 then s
  else
    let s1 := temp_switch cfg s i
    let s2 := if rev &&& POLLIN ≠ 0 then term_read s1
      else
        let s3 := term_end (scr_free s1 i)
        if s3.cmdmode then { s3 with exitit := true } else s3
    switch_back cfg s2 i

/-- Function `poll_all`: one iteration of the event loop; the wait-set holds the slots
that are open when it is built, in ascending order, and the mask `POLLFLAGS & ~POLLIN`
is `POLLFLAGS - POLLIN`. -/
def poll_all (cfg : Config) (s : World) (p : PollResult) : Option (Int × World) :=
  let idxs := (List.range (NTERMS cfg)).filter (TERMOPEN s)
  if p.ret < 1 then some (0, s)
  else if p.revents0 &&& (POLLFLAGS - POLLIN) ≠ 0 then some (1, s)
  else
    match (if p.revents0 &&& POLLIN ≠ 0 then directkey cfg s else some s) with
    | none => none
    | some s1 => some (0, idxs.foldl (fun w i => poll_slot cfg w (p.revents i) i) s1)

/-- The signals `signalregister` installs the handler for. -/
inductive Signal where
  | SIGUSR1
  | SIGUSR2
  | SIGCHLD
  deriving DecidableEq, Repr

/-- Function `signalreceived(n)`; the reaping loop of `SIGCHLD` touches no static. -/
def signalreceived (cfg : Config) (s : World) (n : Signal) : World :=
  if s.exitit then s
  else
    match n with
    | Signal.SIGUSR1 =>
      let s1 := { s with hidden := true }
      emit (term_switch cfg s1 (cterm cfg s1) (cterm cfg s1) false true false) Event.reldisp
    | Signal.SIGUSR2 =>
      let s1 := emit { s with hidden := false } Event.fb_cmap
      term_switch cfg s1 (cterm cfg s1) (cterm cfg s1) true false true
    | Signal.SIGCHLD => s

/-- The `while` loop of `mainloop`, run on the given poll results; `none` when the
loop has not ended on them (or an iteration does not return). -/
def mainloop_loop (cfg : Config) : List PollResult → World → Option World
  | [], s => if s.exitit then some s else none
  | p :: ps, s =>
    if s.exitit then some s
    else
      match poll_all cfg s p with
      | none => none
      | some (r, s1) => if r ≠ 0 then some s1 else mainloop_loop cfg ps s1

/-- Function `mainloop(args)`, the terminal-mode calls left out. -/
def mainloop (cfg : Config) (s : World) (args : Option (List String))
    (polls : List PollResult) : Option World :=
  let s1 := term_load s (cterm cfg s) Flag.TERM_REDRAW
  let s2 := match args with
    | some a => exec_cmd cfg { s1 with cmdmode := true } a
    | none => s1
  mainloop_loop cfg polls s2

/-- The state at program start: every static is zero. -/
def init (stdin : List (Option Nat)) (loads : List Bool) (execs : List Int) : World :=
  { termfd := fun _ => 0, tops := fun _ => 0, ctag := 0, ltag := 0, exitit := false,
    hidden := false, locked := false, pass := fun _ => 0, passlen := 0, cmdmode := false,
    histpos := 0, active := 0, trace := [], stdin := stdin, loads := loads, execs := execs }

/-! ## Derived notions used in the statements -/

/-- The engine calls one `term_switch(oidx, nidx, show, save, load)` makes from `s`,
in order, where `ok` is what `scr_load` returns if it is called. -/
def switch_calls (cfg : Config) (s : World) (oidx nidx : Nat) (show_ save load ok : Bool) :
    List Event :=
  (if save && TERMOPEN s oidx && TERMSNAP cfg oidx then [Event.scr_snap oidx] else [])
    ++ [Event.term_save oidx]
    ++ (if show_ && load && TERMOPEN s nidx && TERMSNAP cfg nidx then [Event.scr_load nidx]
        else [])
    ++ [Event.term_load nidx
        (if show_ then
          (if load then
            (if TERMOPEN s nidx && TERMSNAP cfg nidx then
              (if ok then Flag.TERM_REDRAW else Flag.TERM_VISIBLE)
            else Flag.TERM_REDRAW)
          else Flag.TERM_VISIBLE)
        else Flag.TERM_HIDDEN)]

/-- The value the next `scr_load` call returns in `s`. -/
def next_load (s : World) : Bool := s.loads.headD false

/-- Whether an event is a `term_load` call. -/
def is_term_load : Event → Bool
  | Event.term_load _ _ => true
  | _ => false

/-- The engine calls made between the states `s` and `s1`. -/
def calls_since (s s1 : World) : List Event := s1.trace.drop s.trace.length

/-- The render mode as the specification words it: no-render without `show`;
with `show`, redraw-from-cache (`TERM_REDRAW`) exactly when `load` is set, the target
is open, its tag is snapshot-eligible and the restore succeeded, and redraw-live
(`TERM_VISIBLE`) in every other case. -/
def spec_render_mode (show_ load isopen eligible ok : Bool) : Flag :=
  if show_ then
    (if load && isopen && eligible && ok then Flag.TERM_REDRAW else Flag.TERM_VISIBLE)
  else Flag.TERM_HIDDEN

/-- A configuration with the two tags `a` and `b`, of which `a` is snapshot-eligible,
the escape byte 27, the passcode `pw` and a signed `char`. -/
def cfg2 : Config :=
  { tags := [97, 98], tags_saved := [97], ESC := 27, PASS := some [112, 119],
    SHELL := ["sh"], MAIL := ["mailx"], EDITOR := ["vi"], NHIST := 100, pad_rows := 40,
    FGCOLOR := 0, BGCOLOR := 7, char_signed := true }

/-- A state of `cfg2`: the slots listed in `fds` are open, the live slot is 0. -/
def world2 (fds : List Nat) (hidden : Bool) (histpos : Int) (stdin : List (Option Nat)) :
    World :=
  { init stdin [] [] with
    termfd := fun i => if i ∈ fds then 3 + (i : Int) else 0,
    hidden := hidden, histpos := histpos }

/-- The state `s1` is `s` with further engine calls recorded and nothing else changed. -/
def trace_ext (s s1 : World) : Prop := ∃ l, s1 = { s with trace := s.trace ++ l }

/-- The bound on the history offset: `0 <= histpos <= NHIST`. -/
def hist_ok (cfg : Config) (s : World) : Prop := 0 ≤ s.histpos ∧ s.histpos ≤ cfg.NHIST

/-- Runs `directkey` `k` times in a row, on the input the state holds. -/
def directkeys (cfg : Config) : Nat → World → Option World
  | 0, s => some s
  | k + 1, s => (directkey cfg s).bind (directkeys cfg k)

/-- From `s` to `s1` the passcode length stays within `sizeof(pass) - 1` and no cell
outside the buffer `pass[0 .. sizeof(pass) - 1]` is written. -/
def pass_kept (s s1 : World) : Prop :=
  s1.passlen ≤ PASS_SIZE - 1 ∧ ∀ j, PASS_SIZE ≤ j → s1.pass j = s.pass j

/-- The contents of the passcode buffer after the bytes `cs` are read in locked mode
on top of the contents `acc`: the printable characters, up to `sizeof(pass) - 1`. -/
def typed (cfg : Config) (acc : List Int) (cs : List Nat) : List Int :=
  (acc ++ (cs.map (fun (b : Nat) => to_char cfg (b : Int))).filter isprint).take (PASS_SIZE - 1)

/-- A locked state of `cfg2` with the given passcode length and pending input. -/
def locked2 (passlen : Nat) (stdin : List (Option Nat)) : World :=
  { world2 [0] false 0 stdin with locked := true, passlen := passlen }

/-- The bytes that have a `case` of their own in the `switch` of `directkey`. -/
def command_bytes : List Int := [99, 109, 101, 106, 107, 111, 112, 9, 17, 115, 121, 12, 44, 46]

/-- From `s` to `s1`: if `ltag` has changed then `ctag` has changed too and the new
`ltag` is the old `ctag`. -/
def ltag_follows (s s1 : World) : Prop :=
  s1.ltag ≠ s.ltag → s1.ctag ≠ s.ctag ∧ s1.ltag = s.ctag

/-- Whether an event is a snapshot call: `scr_snap` (save) or `scr_load` (load). -/
def is_snapshot_call : Event → Bool
  | Event.scr_snap _ => true
  | Event.scr_load _ => true
  | _ => false

/-- The bit `POLLERR` of `poll.h`. -/
def POLLERR : Nat := 8

/-- The bit `POLLHUP` of `poll.h`. -/
def POLLHUP : Nat := 16

/-- The bit `POLLNVAL` of `poll.h`. -/
def POLLNVAL : Nat := 32

/-- The controlling input signals a terminal condition: one of `POLLHUP`, `POLLERR`,
`POLLNVAL` is set in `ufds[0].revents`. -/
def stdin_terminal (p : PollResult) : Prop :=
  p.revents0 &&& POLLHUP ≠ 0 ∨ p.revents0 &&& POLLERR ≠ 0 ∨ p.revents0 &&& POLLNVAL ≠ 0

/-- The slots of the wait-set of `poll_all` whose entry has a bit of `POLLFLAGS` set:
the slots open when the wait-set is built, in ascending order, that signalled. -/
def signalled (cfg : Config) (s : World) (p : PollResult) : List Nat :=
  ((List.range (NTERMS cfg)).filter (TERMOPEN s)).filter
    (fun i => decide (p.revents i &&& POLLFLAGS ≠ 0))

/-- The engine calls of `temp_switch(i)` from a state with live slot `c`. -/
def temp_calls (c i : Nat) : List Event :=
  if i ≠ c then [Event.term_save c, Event.term_load i Flag.TERM_HIDDEN] else []

/-- The engine calls of `switch_back(i)` from a state with live slot `c`. -/
def back_calls (c i : Nat) : List Event :=
  if i ≠ c then [Event.term_save i, Event.term_load c Flag.TERM_VISIBLE] else []

/-- The program a spawn command byte stands for: `c` the shell, `m` the mail client,
`e` the editor. -/
def spawn_program (cfg : Config) (c : Int) : List String :=
  if c = 99 then cfg.SHELL else if c = 109 then cfg.MAIL else cfg.EDITOR

/-- The display-cursor predicate: `ctag` and `ltag` are tag indices and `tops[t]` is 0
or 1 for every tag index `t`. -/
def cursor_ok (cfg : Config) (s : World) : Prop :=
  s.ctag < NTAGS cfg ∧ s.ltag < NTAGS cfg ∧ ∀ t, t < NTAGS cfg → s.tops t ≤ 1

/-- A state of `cfg2` with slot 0 open and live, in which the word read at
`tops[NTAGS]`, past the end of the array, is `v`. -/
def world_past (v : Nat) (stdin : List (Option Nat)) : World :=
  { world2 [0] false 0 stdin with tops := fun t => if t = 2 then v else 0 }

/-- Whether this run of `directkey` reads, outside locked mode, the escape byte and
then a byte whose `char` value is NUL: the input on which `strchr` finds the
terminator of `tags` and the source calls `showtag(NTAGS)`, indexing `tops` and
`terms` past their end. -/
def esc_nul (cfg : Config) (s : World) : Bool :=
  !(cfg.PASS.isSome && s.locked) && decide ((readchar cfg s).1 = cfg.ESC) &&
    decide (to_char cfg (readchar cfg (readchar cfg s).2).1 = 0)

/-- Whether none of the next `k` runs of `directkey` from `s` reads NUL after the
escape byte. -/
def clean_run (cfg : Config) : Nat → World → Bool
  | 0, _ => true
  | k + 1, s =>
    !esc_nul cfg s &&
      (match directkey cfg s with
       | some s1 => clean_run cfg k s1
       | none => true)

/-- The state `mainloop` enters its `while` loop with. -/
def mainloop_setup (cfg : Config) (s : World) (args : Option (List String)) : World :=
  match args with
  | some a => exec_cmd cfg { term_load s (cterm cfg s) Flag.TERM_REDRAW with cmdmode := true } a
  | none => term_load s (cterm cfg s) Flag.TERM_REDRAW

/-- Whether no iteration the `while` loop of `mainloop` runs on the given poll results
reads NUL after the escape byte. -/
def clean_loop (cfg : Config) : List PollResult → World → Bool
  | [], _ => true
  | p :: ps, s =>
    s.exitit ||
      (!esc_nul cfg s &&
        (match poll_all cfg s p with
         | some (r, s1) => r != 0 || clean_loop cfg ps s1
         | none => true))

/-- The configuration `cfg2` with `NHIST` at `INT_MAX` and `pad_rows()` returning
2147483644: both are non-negative and `NHIST + pad_rows() / 2` exceeds `INT_MAX`. -/
def cfg_big : Config :=
  { cfg2 with NHIST := 2147483647, pad_rows := 2147483644 }

/-! ## Theorems -/

theorem term_switch_trace (cfg : Config) (s : World) (oidx nidx : Nat)
    (show_ save load : Bool) :
    (term_switch cfg s oidx nidx show_ save load).trace
      = s.trace ++ switch_calls cfg s oidx nidx show_ save load (next_load s) := by
  unfold term_switch switch_calls next_load scr_snap term_save term_load scr_load emit TERMOPEN
  cases show_ <;> cases save <;> cases load <;> cases hl : s.loads <;>
    simp <;> split_ifs <;> simp_all

theorem term_switch_frame (cfg : Config) (s : World) (oidx nidx : Nat)
    (show_ save load : Bool) :
    let s1 := term_switch cfg s oidx nidx show_ save load
    s1.ctag = s.ctag ∧ s1.ltag = s.ltag ∧ s1.tops = s.tops ∧ s1.termfd = s.termfd ∧
    s1.hidden = s.hidden ∧ s1.locked = s.locked ∧ s1.cmdmode = s.cmdmode ∧
    s1.exitit = s.exitit ∧ s1.pass = s.pass ∧ s1.passlen = s.passlen ∧
    s1.stdin = s.stdin ∧ s1.execs = s.execs ∧ s1.active = nidx ∧
    s1.histpos = (if show_ && load then 0 else s.histpos) := by
  unfold term_switch scr_snap term_save term_load scr_load emit TERMOPEN
  cases show_ <;> cases save <;> cases load <;> cases hl : s.loads <;>
    simp <;> split_ifs <;> simp_all

theorem term_switch_loads (cfg : Config) (s : World) (oidx nidx : Nat)
    (show_ save load : Bool) :
    (term_switch cfg s oidx nidx show_ save load).loads
      = (if show_ && load && TERMOPEN s nidx && TERMSNAP cfg nidx then s.loads.tail
         else s.loads) := by
  unfold term_switch scr_snap term_save term_load scr_load emit TERMOPEN
  cases show_ <;> cases save <;> cases load <;> cases hl : s.loads <;>
    simp <;> (try split_ifs) <;> simp_all

theorem switch_calls_loads (cfg : Config) (s : World) (oidx nidx : Nat)
    (show_ save load ok : Bool) :
    ((switch_calls cfg s oidx nidx show_ save load ok).filter is_term_load).length = 1 := by
  unfold switch_calls
  by_cases h1 : (save && TERMOPEN s oidx && TERMSNAP cfg oidx) = true <;>
    by_cases h2 : (show_ && load && TERMOPEN s nidx && TERMSNAP cfg nidx) = true <;>
    simp only [h1, h2, if_true, if_false, List.filter, is_term_load, List.nil_append,
      List.cons_append, List.length_cons, List.length_nil, Bool.false_eq_true]

/-- C10: for at least one tag and a slot index `i` below `2 * NTAGS`, `altterm i` is a
slot index, has the tag of `i` and the other bank, and `altterm` undoes itself. -/
theorem C10_altterm_involution (cfg : Config) (i : Nat) (hT : 1 ≤ NTAGS cfg)
    (hi : i < 2 * NTAGS cfg) :
    altterm cfg i < 2 * NTAGS cfg ∧
    altterm cfg i % NTAGS cfg = i % NTAGS cfg ∧
    altterm cfg i / NTAGS cfg = (i / NTAGS cfg) ^^^ 1 ∧
    altterm cfg (altterm cfg i) = i := by
  unfold altterm
  by_cases h : i < NTAGS cfg
  · have h0 : i / NTAGS cfg = 0 := Nat.div_eq_of_lt h
    have h1 : (i + NTAGS cfg) / NTAGS cfg = 1 := by
      rw [Nat.add_div_right _ (by omega), h0]
    simp only [h, if_true, h0, h1]
    refine ⟨by omega, by simp, by decide, ?_⟩
    rw [if_neg (by omega)]
    omega
  · have hlt : i - NTAGS cfg < NTAGS cfg := by omega
    have h0 : (i - NTAGS cfg) / NTAGS cfg = 0 := Nat.div_eq_of_lt hlt
    have h1 : i / NTAGS cfg = 1 := by
      have e : i = (i - NTAGS cfg) + NTAGS cfg := by omega
      rw [e, Nat.add_div_right _ (by omega), h0]
    have hm : (i - NTAGS cfg) % NTAGS cfg = i % NTAGS cfg := by
      have e : i = (i - NTAGS cfg) + NTAGS cfg := by omega
      conv_rhs => rw [e, Nat.add_mod_right]
    simp only [h, if_false, h0, h1, hm, hlt, if_true]
    refine ⟨by omega, trivial, by decide, by omega⟩

/-- Witness of C10 on `cfg2`: slot 1 (bank 0 of tag 1) and slot 3 are alternates. -/
theorem C10_altterm_involution_witness :
    altterm cfg2 1 < 2 * NTAGS cfg2 ∧
    altterm cfg2 1 % NTAGS cfg2 = 1 % NTAGS cfg2 ∧
    altterm cfg2 1 / NTAGS cfg2 = (1 / NTAGS cfg2) ^^^ 1 ∧
    altterm cfg2 (altterm cfg2 1) = 1 :=
  C10_altterm_involution cfg2 1 (by decide) (by decide)

theorem term_switch_ltag (cfg : Config) (s : World) (x oidx nidx : Nat)
    (show_ save load : Bool) :
    term_switch cfg { s with ltag := x } oidx nidx show_ save load
      = { term_switch cfg s oidx nidx show_ save load with ltag := x } := by
  unfold term_switch scr_snap term_save term_load scr_load emit TERMOPEN
  cases show_ <;> cases save <;> cases load <;> cases hl : s.loads <;>
    simp <;> (try split_ifs) <;> simp_all

theorem showterm_guard (cfg : Config) (s : World) (n : Nat)
    (h : cterm cfg s = n ∨ s.cmdmode = true) : showterm cfg s n = s := by
  unfold showterm
  rw [if_pos h]

theorem showterm_fields (cfg : Config) (s : World) (n : Nat)
    (h : ¬ (cterm cfg s = n ∨ s.cmdmode = true)) :
    (showterm cfg s n).trace
      = (term_switch cfg s (cterm cfg s) n (!s.hidden) (!s.hidden) (!s.hidden)).trace ∧
    (showterm cfg s n).loads
      = (term_switch cfg s (cterm cfg s) n (!s.hidden) (!s.hidden) (!s.hidden)).loads ∧
    (showterm cfg s n).histpos = (if s.hidden then s.histpos else 0) ∧
    (showterm cfg s n).active = n ∧
    (showterm cfg s n).ctag = n % NTAGS cfg ∧
    (showterm cfg s n).tops = store s.tops (n % NTAGS cfg) (n / NTAGS cfg) ∧
    (showterm cfg s n).ltag = (if s.ctag ≠ n % NTAGS cfg then s.ctag else s.ltag) ∧
    (showterm cfg s n).termfd = s.termfd ∧ (showterm cfg s n).hidden = s.hidden ∧
    (showterm cfg s n).locked = s.locked ∧ (showterm cfg s n).cmdmode = s.cmdmode ∧
    (showterm cfg s n).exitit = s.exitit ∧ (showterm cfg s n).pass = s.pass ∧
    (showterm cfg s n).passlen = s.passlen ∧ (showterm cfg s n).stdin = s.stdin ∧
    (showterm cfg s n).execs = s.execs := by
  have hf := term_switch_frame cfg s (cterm cfg s) n (!s.hidden) (!s.hidden) (!s.hidden)
  simp only at hf
  obtain ⟨f1, f2, f3, f4, f5, f6, f7, f8, f9, f10, f11, f12, f13, f14⟩ := hf
  unfold showterm
  rw [if_neg h]
  by_cases hc : s.ctag ≠ n % NTAGS cfg
  · simp only [hc, if_true, ne_eq, not_false_eq_true]
    have e : cterm cfg { s with ltag := s.ctag } = cterm cfg s := rfl
    rw [e, term_switch_ltag]
    simp only [f3, f4, f5, f6, f7, f8, f9, f10, f11, f12, f13, f14]
    cases s.hidden <;> simp
  · simp only [hc, if_false]
    simp only [f2, f3, f4, f5, f6, f7, f8, f9, f10, f11, f12, f13, f14]
    cases s.hidden <;> simp

theorem cterm_after_show (cfg : Config) (s : World) (n : Nat)
    (h : ¬ (cterm cfg s = n ∨ s.cmdmode = true)) : cterm cfg (showterm cfg s n) = n := by
  obtain ⟨-, -, -, -, h5, h6, -⟩ := showterm_fields cfg s n h
  unfold cterm
  rw [h6, h5]
  simp only [store, if_true]
  exact Nat.div_add_mod' n (NTAGS cfg)

/-- C1: outside one-shot mode, `showterm(n)` on a slot index `n` other than the live
one makes the engine calls of exactly one
`term_switch(cterm(), n, !hidden, !hidden, !hidden)` (among them one `term_load`),
after which `cterm() = n`, `ctag = n % NTAGS`, `tops[ctag] = n / NTAGS`, the other
entries of `tops` are as before, and `ltag` is the old `ctag` if the tag changed and
is as before otherwise. -/
theorem C1_showterm_switches (cfg : Config) (s : World) (n : Nat) (_hT : 1 ≤ NTAGS cfg)
    (_hn : n < 2 * NTAGS cfg) (hlive : n ≠ cterm cfg s) (hcmd : s.cmdmode = false)
    (_hctag : s.ctag < NTAGS cfg) (_htop : s.tops s.ctag ≤ 1) :
    calls_since s (showterm cfg s n)
      = switch_calls cfg s (cterm cfg s) n (!s.hidden) (!s.hidden) (!s.hidden) (next_load s) ∧
    ((calls_since s (showterm cfg s n)).filter is_term_load).length = 1 ∧
    (showterm cfg s n).trace
      = (term_switch cfg s (cterm cfg s) n (!s.hidden) (!s.hidden) (!s.hidden)).trace ∧
    cterm cfg (showterm cfg s n) = n ∧
    (showterm cfg s n).ctag = n % NTAGS cfg ∧
    (showterm cfg s n).tops (showterm cfg s n).ctag = n / NTAGS cfg ∧
    (∀ t, t ≠ (showterm cfg s n).ctag → (showterm cfg s n).tops t = s.tops t) ∧
    (showterm cfg s n).ltag = (if s.ctag ≠ n % NTAGS cfg then s.ctag else s.ltag) := by
  have hg : ¬ (cterm cfg s = n ∨ s.cmdmode = true) := by
    rw [hcmd]
    simp only [Bool.false_eq_true, or_false]
    exact fun h => hlive h.symm
  obtain ⟨h1, -, -, -, h5, h6, h7, -⟩ := showterm_fields cfg s n hg
  have hcalls : calls_since s (showterm cfg s n)
      = switch_calls cfg s (cterm cfg s) n (!s.hidden) (!s.hidden) (!s.hidden)
          (next_load s) := by
    unfold calls_since
    rw [h1, term_switch_trace, List.drop_left]
  refine ⟨hcalls, ?_, h1, cterm_after_show cfg s n hg, h5, ?_, ?_, h7⟩
  · rw [hcalls]
    exact switch_calls_loads cfg s _ n _ _ _ _
  · rw [h6, h5]
    simp [store]
  · intro t ht
    rw [h5] at ht
    rw [h6]
    simp [store, ht]

/-- Witness of C1 on `cfg2`: from live slot 0, not hidden, `showterm 3`. -/
theorem C1_showterm_switches_witness :
    calls_since (world2 [0] false 0 []) (showterm cfg2 (world2 [0] false 0 []) 3)
      = [Event.scr_snap 0, Event.term_save 0, Event.term_load 3 Flag.TERM_REDRAW] ∧
    cterm cfg2 (showterm cfg2 (world2 [0] false 0 []) 3) = 3 ∧
    (showterm cfg2 (world2 [0] false 0 []) 3).ltag = 0 :=
  have h := C1_showterm_switches cfg2 (world2 [0] false 0 []) 3 (by decide) (by decide)
    (by decide) rfl (by decide) (by decide)
  ⟨h.1.trans (by decide), h.2.2.2.1, h.2.2.2.2.2.2.2.trans (by decide)⟩

/-- C2, as amended: `term_switch` makes exactly one `term_load` call, its last engine
call, on `nidx`. Its mode is `TERM_HIDDEN` without `show`. With `show` and without
`load` it is `TERM_VISIBLE`. With `show` and `load` it is `TERM_REDRAW`, except when
`nidx` is open, its tag is snapshot-eligible and `scr_load` returns zero, where it is
`TERM_VISIBLE`. -/
theorem C2_render_mode (cfg : Config) (s : World) (oidx nidx : Nat)
    (show_ save load : Bool) :
    (term_switch cfg s oidx nidx show_ save load).trace.getLast?
      = some (Event.term_load nidx
          (if show_ then
            (if load then
              (if TERMOPEN s nidx && TERMSNAP cfg nidx && !next_load s then Flag.TERM_VISIBLE
               else Flag.TERM_REDRAW)
            else Flag.TERM_VISIBLE)
          else Flag.TERM_HIDDEN)) ∧
    ((calls_since s (term_switch cfg s oidx nidx show_ save load)).filter is_term_load).length
      = 1 := by
  constructor
  · rw [term_switch_trace]
    unfold switch_calls
    rw [← List.append_assoc, ← List.append_assoc, ← List.append_assoc,
      List.getLast?_concat]
    cases show_ <;> cases load <;> cases TERMOPEN s nidx <;> cases TERMSNAP cfg nidx <;>
      cases next_load s <;> rfl
  · unfold calls_since
    rw [term_switch_trace, List.drop_left]
    exact switch_calls_loads cfg s oidx nidx show_ save load (next_load s)

/-- C2, refuted as stated: on `cfg2` with slots 0 and 1 open, slot 1 having the
tag `b` that is not snapshot-eligible, `term_switch(0, 1, 1, 0, 1)` activates slot 1
with `TERM_REDRAW`, where the specification wording gives redraw-live
(`TERM_VISIBLE`) for a tag that is not eligible. Whatever constant stands for
redraw-live, the wording gives one mode to the cases load not set and tag not
eligible, and the code gives them two: `term_switch(0, 1, 1, 0, 0)` activates slot 1
with `TERM_VISIBLE`. -/
theorem C2_not_eligible_redraws :
    TERMSNAP cfg2 1 = false ∧
    (term_switch cfg2 (world2 [0, 1] false 0 []) 0 1 true false true).trace.getLast?
      = some (Event.term_load 1 Flag.TERM_REDRAW) ∧
    spec_render_mode true true (TERMOPEN (world2 [0, 1] false 0 []) 1) (TERMSNAP cfg2 1)
      (next_load (world2 [0, 1] false 0 [])) = Flag.TERM_VISIBLE ∧
    (term_switch cfg2 (world2 [0, 1] false 0 []) 0 1 true false false).trace.getLast?
      = some (Event.term_load 1 Flag.TERM_VISIBLE) ∧
    spec_render_mode true false (TERMOPEN (world2 [0, 1] false 0 []) 1) (TERMSNAP cfg2 1)
      (next_load (world2 [0, 1] false 0 [])) = Flag.TERM_VISIBLE := by
  decide

/-- C3, the code at the failing inputs: in a hidden state of `cfg2` with live slot 0
and slot 1 open, `switch_back(1)` activates the live slot with `TERM_VISIBLE`; one
`poll_all` iteration in which only slot 1 is readable ends with that same call; and
the escape command `y` restores the snapshot and activates the live slot with
`TERM_VISIBLE`. -/
theorem C3_hidden_state_renders :
    (world2 [0, 1] true 0 []).hidden = true ∧
    calls_since (world2 [0, 1] true 0 []) (switch_back cfg2 (world2 [0, 1] true 0 []) 1)
      = [Event.term_save 1, Event.term_load 0 Flag.TERM_VISIBLE] ∧
    (poll_all cfg2 (world2 [0, 1] true 0 [])
        { ret := 1, revents0 := 0, revents := fun i => if i = 1 then POLLIN else 0 }).map
        (fun r => (r.1, r.2.hidden, r.2.trace))
      = some (0, true, [Event.term_save 0, Event.term_load 1 Flag.TERM_HIDDEN, Event.term_read,
          Event.term_save 1, Event.term_load 0 Flag.TERM_VISIBLE]) ∧
    (directkey cfg2 (world2 [0, 1] true 0 [some 27, some 121])).map
        (fun r => (r.hidden, r.trace))
      = some (true, [Event.term_save 0, Event.scr_load 0,
          Event.term_load 0 Flag.TERM_VISIBLE]) := by
  decide

theorem readchar_snd (cfg : Config) (s : World) :
    (readchar cfg s).2 = { s with stdin := s.stdin.tail } := by
  unfold readchar
  cases s with
  | mk termfd tops ctag ltag exitit hidden locked pass passlen cmdmode histpos active trace
      stdin loads execs =>
    cases stdin with
    | nil => rfl
    | cons a rest => cases a <;> rfl

theorem nextterm_loop_cases (cfg : Config) (s : World) :
    ∀ (fuel n : Nat) (s1 : World), nextterm_loop cfg s fuel n = some s1 →
      s1 = s ∨ ∃ m, s1 = showterm cfg s m := by
  intro fuel
  induction fuel with
  | zero =>
    intro n s1 h
    simp [nextterm_loop] at h
  | succ k ih =>
    intro n s1 h
    unfold nextterm_loop at h
    split_ifs at h with h1 h2
    · left
      exact (Option.some.inj h).symm
    · right
      exact ⟨n, (Option.some.inj h).symm⟩
    · exact ih _ s1 h

theorem showterm_cursor (cfg : Config) (s : World) (n : Nat) (hh : s.hidden = false) :
    cterm cfg (showterm cfg s n) = cterm cfg s ∨ (showterm cfg s n).histpos = 0 := by
  by_cases hg : cterm cfg s = n ∨ s.cmdmode = true
  · left
    rw [showterm_guard cfg s n hg]
  · right
    obtain ⟨-, -, h3, -⟩ := showterm_fields cfg s n hg
    rw [h3, hh]
    rfl

theorem readchar_frame (cfg : Config) (s : World) :
    (readchar cfg s).2.termfd = s.termfd ∧ (readchar cfg s).2.tops = s.tops ∧
    (readchar cfg s).2.ctag = s.ctag ∧ (readchar cfg s).2.ltag = s.ltag ∧
    (readchar cfg s).2.exitit = s.exitit ∧ (readchar cfg s).2.hidden = s.hidden ∧
    (readchar cfg s).2.locked = s.locked ∧ (readchar cfg s).2.pass = s.pass ∧
    (readchar cfg s).2.passlen = s.passlen ∧ (readchar cfg s).2.cmdmode = s.cmdmode ∧
    (readchar cfg s).2.histpos = s.histpos ∧ (readchar cfg s).2.active = s.active ∧
    (readchar cfg s).2.trace = s.trace ∧ (readchar cfg s).2.loads = s.loads ∧
    (readchar cfg s).2.execs = s.execs ∧ (readchar cfg s).2.stdin = s.stdin.tail := by
  rw [readchar_snd]
  exact ⟨rfl, rfl, rfl, rfl, rfl, rfl, rfl, rfl, rfl, rfl, rfl, rfl, rfl, rfl, rfl, rfl⟩

theorem readchar_cterm (cfg : Config) (s : World) :
    cterm cfg (readchar cfg s).2 = cterm cfg s := by
  rw [readchar_snd]
  rfl

theorem nextterm_cases (cfg : Config) (s s1 : World) (h : nextterm cfg s = some s1) :
    s1 = s ∨ ∃ m, s1 = showterm cfg s m :=
  nextterm_loop_cases cfg s _ _ s1 h

/-- Case analysis of the `switch` of `directkey`: a property of its result holds as
soon as it holds for the result of each `case`. -/
theorem directkey_esc_elim (cfg : Config) (s : World) (c : Int) (P : Option World → Prop)
    (h_exec : ∀ args, P (some (exec_cmd cfg s args)))
    (h_alt : P (some (showterm cfg s (altterm cfg (cterm cfg s)))))
    (h_last : P (some (showtag cfg s s.ltag)))
    (h_tags : P (some (showtags cfg s)))
    (h_next : P (nextterm cfg s))
    (h_exit : P (some { s with exitit := true }))
    (h_shot : P (some (term_screenshot s)))
    (h_redraw : P (some (term_switch cfg s (cterm cfg s) (cterm cfg s) true false true)))
    (h_lock : P (some { s with locked := true, passlen := 0 }))
    (h_fwd : P (some (term_hist
      { s with histpos := min cfg.NHIST (wrap_int (s.histpos + Int.tdiv cfg.pad_rows 2)) }
      (min cfg.NHIST (wrap_int (s.histpos + Int.tdiv cfg.pad_rows 2))))))
    (h_bwd : P (some (term_hist
      { s with histpos := max 0 (wrap_int (s.histpos - Int.tdiv cfg.pad_rows 2)) }
      (max 0 (wrap_int (s.histpos - Int.tdiv cfg.pad_rows 2))))))
    (h_tag : ∀ k, strchr cfg cfg.tags c = some k → P (some (showtag cfg s k)))
    (h_other : strchr cfg cfg.tags c = none →
      P (some (directkey_send cfg
        (if (mainterm cfg s).isSome then term_send s cfg.ESC else s) c))) :
    P (directkey_esc cfg s c) := by
  unfold directkey_esc
  by_cases h1 : c = 99
  · rw [if_pos h1]; exact h_exec _
  rw [if_neg h1]
  by_cases h2 : c = 109
  · rw [if_pos h2]; exact h_exec _
  rw [if_neg h2]
  by_cases h3 : c = 101
  · rw [if_pos h3]; exact h_exec _
  rw [if_neg h3]
  by_cases h4 : c = 106 ∨ c = 107
  · rw [if_pos h4]; exact h_alt
  rw [if_neg h4]
  by_cases h5 : c = 111
  · rw [if_pos h5]; exact h_last
  rw [if_neg h5]
  by_cases h6 : c = 112
  · rw [if_pos h6]; exact h_tags
  rw [if_neg h6]
  by_cases h7 : c = 9
  · rw [if_pos h7]; exact h_next
  rw [if_neg h7]
  by_cases h8 : c = 17
  · rw [if_pos h8]; exact h_exit
  rw [if_neg h8]
  by_cases h9 : c = 115
  · rw [if_pos h9]; exact h_shot
  rw [if_neg h9]
  by_cases h10 : c = 121
  · rw [if_pos h10]; exact h_redraw
  rw [if_neg h10]
  by_cases h11 : c = 12
  · rw [if_pos h11]; exact h_lock
  rw [if_neg h11]
  by_cases h12 : c = 44
  · rw [if_pos h12]; exact h_fwd
  rw [if_neg h12]
  by_cases h13 : c = 46
  · rw [if_pos h13]; exact h_bwd
  rw [if_neg h13]
  cases hk : strchr cfg cfg.tags c with
  | none => exact h_other hk
  | some k => exact h_tag k hk

/-- Case analysis of `directkey` on a state `s`: the locked block, the `switch` on
the byte after the escape byte, or the forwarding of the byte read. -/
theorem directkey_elim (cfg : Config) (s : World) (P : Option World → Prop)
    (h_locked : cfg.PASS.isSome = true → s.locked = true →
      P (some (directkey_locked cfg (readchar cfg s).2 (readchar cfg s).1)))
    (h_esc : (cfg.PASS.isSome && s.locked) = false → (readchar cfg s).1 = cfg.ESC →
      P (directkey_esc cfg (readchar cfg (readchar cfg s).2).2
        (readchar cfg (readchar cfg s).2).1))
    (h_send : (cfg.PASS.isSome && s.locked) = false → (readchar cfg s).1 ≠ cfg.ESC →
      P (some (directkey_send cfg (readchar cfg s).2 (readchar cfg s).1))) :
    P (directkey cfg s) := by
  unfold directkey
  have hl : (readchar cfg s).2.locked = s.locked := (readchar_frame cfg s).2.2.2.2.2.2.1
  simp only [hl]
  by_cases h1 : (cfg.PASS.isSome && s.locked) = true
  · rw [if_pos h1]
    simp only [Bool.and_eq_true] at h1
    exact h_locked h1.1 h1.2
  · rw [if_neg h1]
    simp only [Bool.not_eq_true] at h1
    by_cases h2 : (readchar cfg s).1 = cfg.ESC
    · rw [if_pos h2]; exact h_esc h1 h2
    · rw [if_neg h2]; exact h_send h1 h2

theorem trace_ext_refl (s : World) : trace_ext s s :=
  ⟨[], by cases s; simp⟩

theorem trace_ext_emit (s : World) (e : Event) : trace_ext s (emit s e) :=
  ⟨[e], rfl⟩

theorem trace_ext_trans {s s1 s2 : World} (h1 : trace_ext s s1) (h2 : trace_ext s1 s2) :
    trace_ext s s2 := by
  obtain ⟨l1, rfl⟩ := h1
  obtain ⟨l2, rfl⟩ := h2
  exact ⟨l1 ++ l2, by simp only [List.append_assoc]⟩

theorem trace_ext_pad_put (s : World) (ch r c fg bg : Int) :
    trace_ext s (pad_put s ch r c fg bg) :=
  trace_ext_emit s _

theorem showtags_tag_trace (cfg : Config) (s : World) (i : Nat) :
    trace_ext s (showtags_tag cfg s i) := by
  unfold showtags_tag
  simp only []
  refine trace_ext_trans ?_ (trace_ext_pad_put _ _ _ _ _ _)
  split_ifs <;>
    exact trace_ext_trans (trace_ext_pad_put s _ _ _ _ _) (trace_ext_pad_put _ _ _ _ _ _)

theorem showtags_fold_trace (cfg : Config) (l : List Nat) :
    ∀ s : World, trace_ext s (l.foldl (showtags_tag cfg) s) := by
  induction l with
  | nil =>
    intro s
    exact trace_ext_refl s
  | cons i rest ih =>
    intro s
    rw [List.foldl_cons]
    exact trace_ext_trans (showtags_tag_trace cfg s i) (ih _)

theorem showtags_trace (cfg : Config) (s : World) : trace_ext s (showtags cfg s) := by
  unfold showtags
  simp only []
  refine trace_ext_trans ?_ (showtags_fold_trace cfg _ _)
  exact trace_ext_trans (trace_ext_trans (trace_ext_trans (trace_ext_trans (trace_ext_trans
    (trace_ext_pad_put _ _ _ _ _ _) (trace_ext_pad_put _ _ _ _ _ _))
    (trace_ext_pad_put _ _ _ _ _ _)) (trace_ext_pad_put _ _ _ _ _ _))
    (trace_ext_pad_put _ _ _ _ _ _)) (trace_ext_pad_put _ _ _ _ _ _)

theorem exec_cmd_frame (cfg : Config) (s : World) (args : List String) :
    (exec_cmd cfg s args).tops = s.tops ∧ (exec_cmd cfg s args).ctag = s.ctag ∧
    (exec_cmd cfg s args).ltag = s.ltag ∧ (exec_cmd cfg s args).exitit = s.exitit ∧
    (exec_cmd cfg s args).hidden = s.hidden ∧ (exec_cmd cfg s args).locked = s.locked ∧
    (exec_cmd cfg s args).pass = s.pass ∧ (exec_cmd cfg s args).passlen = s.passlen ∧
    (exec_cmd cfg s args).cmdmode = s.cmdmode ∧ (exec_cmd cfg s args).histpos = s.histpos ∧
    (exec_cmd cfg s args).active = s.active ∧ (exec_cmd cfg s args).stdin = s.stdin ∧
    (exec_cmd cfg s args).loads = s.loads := by
  unfold exec_cmd term_exec emit
  split_ifs
  · cases s.execs <;> exact ⟨rfl, rfl, rfl, rfl, rfl, rfl, rfl, rfl, rfl, rfl, rfl, rfl, rfl⟩
  · exact ⟨rfl, rfl, rfl, rfl, rfl, rfl, rfl, rfl, rfl, rfl, rfl, rfl, rfl⟩

theorem directkey_send_frame (cfg : Config) (s : World) (c : Int) :
    (directkey_send cfg s c).tops = s.tops ∧ (directkey_send cfg s c).ctag = s.ctag ∧
    (directkey_send cfg s c).ltag = s.ltag ∧ (directkey_send cfg s c).exitit = s.exitit ∧
    (directkey_send cfg s c).hidden = s.hidden ∧ (directkey_send cfg s c).locked = s.locked ∧
    (directkey_send cfg s c).pass = s.pass ∧ (directkey_send cfg s c).passlen = s.passlen ∧
    (directkey_send cfg s c).cmdmode = s.cmdmode ∧ (directkey_send cfg s c).histpos = 0 ∧
    (directkey_send cfg s c).active = s.active ∧ (directkey_send cfg s c).stdin = s.stdin ∧
    (directkey_send cfg s c).loads = s.loads ∧ (directkey_send cfg s c).termfd = s.termfd ∧
    (directkey_send cfg s c).execs = s.execs := by
  unfold directkey_send term_send emit
  simp only []
  split_ifs <;> exact ⟨rfl, rfl, rfl, rfl, rfl, rfl, rfl, rfl, rfl, rfl, rfl, rfl, rfl, rfl, rfl⟩

theorem directkey_locked_frame (cfg : Config) (s : World) (c : Int) :
    (directkey_locked cfg s c).tops = s.tops ∧ (directkey_locked cfg s c).ctag = s.ctag ∧
    (directkey_locked cfg s c).ltag = s.ltag ∧ (directkey_locked cfg s c).exitit = s.exitit ∧
    (directkey_locked cfg s c).hidden = s.hidden ∧
    (directkey_locked cfg s c).cmdmode = s.cmdmode ∧
    (directkey_locked cfg s c).histpos = s.histpos ∧
    (directkey_locked cfg s c).active = s.active ∧ (directkey_locked cfg s c).stdin = s.stdin ∧
    (directkey_locked cfg s c).loads = s.loads ∧ (directkey_locked cfg s c).termfd = s.termfd ∧
    (directkey_locked cfg s c).execs = s.execs ∧ (directkey_locked cfg s c).trace = s.trace := by
  unfold directkey_locked
  simp only []
  split_ifs <;> exact ⟨rfl, rfl, rfl, rfl, rfl, rfl, rfl, rfl, rfl, rfl, rfl, rfl, rfl⟩

theorem cterm_congr (cfg : Config) (s s1 : World) (h1 : s1.tops = s.tops)
    (h2 : s1.ctag = s.ctag) : cterm cfg s1 = cterm cfg s := by
  unfold cterm
  rw [h1, h2]

theorem showtag_cursor (cfg : Config) (s : World) (n : Nat) (hh : s.hidden = false) :
    cterm cfg (showtag cfg s n) = cterm cfg s ∨ (showtag cfg s n).histpos = 0 :=
  showterm_cursor cfg s _ hh

theorem nextterm_cursor (cfg : Config) (s s1 : World) (hh : s.hidden = false)
    (h : nextterm cfg s = some s1) : cterm cfg s1 = cterm cfg s ∨ s1.histpos = 0 := by
  rcases nextterm_cases cfg s s1 h with rfl | ⟨m, rfl⟩
  · left; rfl
  · exact showterm_cursor cfg s m hh

theorem directkey_esc_cursor (cfg : Config) (s : World) (c : Int) (hh : s.hidden = false) :
    ∀ s1, directkey_esc cfg s c = some s1 → cterm cfg s1 = cterm cfg s ∨ s1.histpos = 0 := by
  apply directkey_esc_elim cfg s c
    (fun r => ∀ s1, r = some s1 → cterm cfg s1 = cterm cfg s ∨ s1.histpos = 0)
  · intro args s1 h
    cases h
    obtain ⟨h1, h2, -⟩ := exec_cmd_frame cfg s args
    exact Or.inl (cterm_congr cfg _ _ h1 h2)
  · intro s1 h
    cases h
    exact showterm_cursor cfg s _ hh
  · intro s1 h
    cases h
    exact showtag_cursor cfg s _ hh
  · intro s1 h
    cases h
    obtain ⟨t, ht⟩ := showtags_trace cfg s
    rw [ht]
    exact Or.inl rfl
  · intro s1 h
    exact nextterm_cursor cfg s s1 hh h
  · intro s1 h
    cases h
    exact Or.inl rfl
  · intro s1 h
    cases h
    exact Or.inl rfl
  · intro s1 h
    cases h
    obtain ⟨h1, -, h2, -⟩ := term_switch_frame cfg s (cterm cfg s) (cterm cfg s) true false true
    exact Or.inl (cterm_congr cfg _ _ h2 h1)
  · intro s1 h
    cases h
    exact Or.inl rfl
  · intro s1 h
    cases h
    exact Or.inl rfl
  · intro s1 h
    cases h
    exact Or.inl rfl
  · intro k _ s1 h
    cases h
    exact showtag_cursor cfg s _ hh
  · intro _ s1 h
    cases h
    right
    exact (directkey_send_frame cfg _ c).2.2.2.2.2.2.2.2.2.1

/-- C4, as amended: in a state that is not hidden, after any run of `directkey`
(so after each escape command) that leaves a live slot index `cterm()` different from
the one before, `histpos` is 0. -/
theorem C4_histpos_reset_when_shown (cfg : Config) (s s1 : World) (hh : s.hidden = false)
    (h : directkey cfg s = some s1) (hc : cterm cfg s1 ≠ cterm cfg s) : s1.histpos = 0 := by
  have key : ∀ s1, directkey cfg s = some s1 → cterm cfg s1 = cterm cfg s ∨ s1.histpos = 0 := by
    apply directkey_elim cfg s
      (fun r => ∀ s1, r = some s1 → cterm cfg s1 = cterm cfg s ∨ s1.histpos = 0)
    · intro _ _ s1 h
      cases h
      obtain ⟨h1, h2, -⟩ := directkey_locked_frame cfg (readchar cfg s).2 (readchar cfg s).1
      left
      rw [cterm_congr cfg _ _ h1 h2, readchar_cterm]
    · intro _ _ s1 h
      have hh2 : (readchar cfg (readchar cfg s).2).2.hidden = false := by
        rw [(readchar_frame cfg _).2.2.2.2.2.1, (readchar_frame cfg _).2.2.2.2.2.1, hh]
      rcases directkey_esc_cursor cfg _ _ hh2 s1 h with h3 | h3
      · left
        rw [h3, readchar_cterm, readchar_cterm]
      · exact Or.inr h3
    · intro _ _ s1 h
      cases h
      right
      exact (directkey_send_frame cfg _ _).2.2.2.2.2.2.2.2.2.1
  rcases key s1 h with h3 | h3
  · exact absurd h3 hc
  · exact h3

/-- Witness of C4 on `cfg2`: not hidden, `histpos` 5, the alternate-bank command
(escape then `j`) moves the live slot from 0 to 2 and `histpos` is 0 afterwards. -/
theorem C4_histpos_reset_when_shown_witness :
    ((directkey cfg2 (world2 [0] false 5 [some 27, some 106])).get (by decide)).histpos = 0 :=
  C4_histpos_reset_when_shown cfg2 (world2 [0] false 5 [some 27, some 106]) _ rfl
    (by simp) (by decide)

/-- C4, refuted as stated: on `cfg2` in a hidden state with `histpos` 5, the
alternate-bank command (escape then `j`) moves the live slot from 0 to 2 and leaves
`histpos` at 5. -/
theorem C4_hidden_switch_keeps_histpos :
    cterm cfg2 (world2 [0] true 5 [some 27, some 106]) = 0 ∧
    (directkey cfg2 (world2 [0] true 5 [some 27, some 106])).map
        (fun r => (cterm cfg2 r, r.histpos)) = some (2, 5) := by
  decide

theorem nextterm_loop_returns (cfg : Config) (s : World) (hc : cterm cfg s < NTERMS cfg) :
    ∀ (fuel n : Nat), n < NTERMS cfg →
      (if n ≤ cterm cfg s then cterm cfg s - n else cterm cfg s + NTERMS cfg - n) < fuel →
      (nextterm_loop cfg s fuel n).isSome = true := by
  intro fuel
  induction fuel with
  | zero =>
    intro n _ h
    exact absurd h (Nat.not_lt_zero _)
  | succ k ih =>
    intro n hn h
    unfold nextterm_loop
    by_cases h1 : n = cterm cfg s
    · rw [if_pos h1]; rfl
    rw [if_neg h1]
    by_cases h2 : TERMOPEN s n = true
    · rw [if_pos h2]; rfl
    rw [if_neg h2]
    by_cases h3 : n + 1 < NTERMS cfg
    · rw [Nat.mod_eq_of_lt h3]
      apply ih _ h3
      split_ifs at h ⊢ <;> omega
    · have h4 : n + 1 = NTERMS cfg := by omega
      rw [h4, Nat.mod_self]
      apply ih _ (by omega)
      split_ifs at h ⊢ <;> omega

/-- With the live slot a slot index, the scan of `nextterm` ends. -/
theorem nextterm_returns (cfg : Config) (s : World) (hc : cterm cfg s < NTERMS cfg) :
    (nextterm cfg s).isSome = true := by
  unfold nextterm
  apply nextterm_loop_returns cfg s hc _ _ (Nat.mod_lt _ (by omega))
  by_cases h3 : cterm cfg s + 1 < NTERMS cfg
  · rw [Nat.mod_eq_of_lt h3]
    split_ifs <;> omega
  · have h4 : cterm cfg s + 1 = NTERMS cfg := by omega
    rw [h4, Nat.mod_self]
    split_ifs <;> omega

theorem wrap_int_of_range (x : Int) (h1 : -2147483648 ≤ x) (h2 : x < 2147483648) :
    wrap_int x = x := by
  unfold wrap_int
  rw [Int.emod_eq_of_lt (by omega) (by omega)]
  omega

theorem hist_ok_of_eq (cfg : Config) {s s1 : World} (h : s1.histpos = s.histpos)
    (hs : hist_ok cfg s) : hist_ok cfg s1 := by
  unfold hist_ok at hs ⊢
  rw [h]
  exact hs

theorem hist_ok_zero (cfg : Config) (hN : 0 ≤ cfg.NHIST) {s1 : World} (h : s1.histpos = 0) :
    hist_ok cfg s1 := by
  unfold hist_ok
  rw [h]
  exact ⟨le_refl 0, hN⟩

theorem hist_ok_trace_ext (cfg : Config) {s s1 : World} (h : trace_ext s s1)
    (hs : hist_ok cfg s) : hist_ok cfg s1 := by
  obtain ⟨l, rfl⟩ := h
  exact hs

theorem term_switch_hist_ok (cfg : Config) (hN : 0 ≤ cfg.NHIST) (s : World) (oidx nidx : Nat)
    (show_ save load : Bool) (hs : hist_ok cfg s) :
    hist_ok cfg (term_switch cfg s oidx nidx show_ save load) := by
  have h := (term_switch_frame cfg s oidx nidx show_ save load).2.2.2.2.2.2.2.2.2.2.2.2.2
  by_cases hc : (show_ && load) = true
  · rw [if_pos hc] at h
    exact hist_ok_zero cfg hN h
  · rw [if_neg hc] at h
    exact hist_ok_of_eq cfg h hs

theorem showterm_hist_ok (cfg : Config) (hN : 0 ≤ cfg.NHIST) (s : World) (n : Nat)
    (hs : hist_ok cfg s) : hist_ok cfg (showterm cfg s n) := by
  by_cases hg : cterm cfg s = n ∨ s.cmdmode = true
  · rw [showterm_guard cfg s n hg]
    exact hs
  · obtain ⟨-, -, h3, -⟩ := showterm_fields cfg s n hg
    cases hh : s.hidden
    · rw [hh] at h3
      exact hist_ok_zero cfg hN h3
    · rw [hh] at h3
      exact hist_ok_of_eq cfg h3 hs

theorem nextterm_hist_ok (cfg : Config) (hN : 0 ≤ cfg.NHIST) (s s1 : World)
    (hs : hist_ok cfg s) (h : nextterm cfg s = some s1) : hist_ok cfg s1 := by
  rcases nextterm_cases cfg s s1 h with rfl | ⟨m, rfl⟩
  · exact hs
  · exact showterm_hist_ok cfg hN s m hs

theorem directkey_esc_hist_ok (cfg : Config) (hN : 0 ≤ cfg.NHIST) (hR : 0 ≤ cfg.pad_rows)
    (hfit : cfg.NHIST + Int.tdiv cfg.pad_rows 2 < 2147483648)
    (s : World) (c : Int) (hs : hist_ok cfg s) :
    ∀ s1, directkey_esc cfg s c = some s1 → hist_ok cfg s1 := by
  have hdiv : 0 ≤ Int.tdiv cfg.pad_rows 2 := Int.tdiv_nonneg hR (by decide)
  apply directkey_esc_elim cfg s c (fun r => ∀ s1, r = some s1 → hist_ok cfg s1)
  · intro args s1 h
    cases h
    exact hist_ok_of_eq cfg (exec_cmd_frame cfg s args).2.2.2.2.2.2.2.2.2.1 hs
  · intro s1 h
    cases h
    exact showterm_hist_ok cfg hN s _ hs
  · intro s1 h
    cases h
    exact showterm_hist_ok cfg hN s _ hs
  · intro s1 h
    cases h
    exact hist_ok_trace_ext cfg (showtags_trace cfg s) hs
  · intro s1 h
    exact nextterm_hist_ok cfg hN s s1 hs h
  · intro s1 h
    cases h
    exact hs
  · intro s1 h
    cases h
    exact hs
  · intro s1 h
    cases h
    exact term_switch_hist_ok cfg hN s _ _ _ _ _ hs
  · intro s1 h
    cases h
    exact hs
  · intro s1 h
    cases h
    obtain ⟨h1, h2⟩ := hs
    show 0 ≤ min cfg.NHIST (wrap_int (s.histpos + Int.tdiv cfg.pad_rows 2)) ∧
      min cfg.NHIST (wrap_int (s.histpos + Int.tdiv cfg.pad_rows 2)) ≤ cfg.NHIST
    rw [wrap_int_of_range _ (by omega) (by omega)]
    exact ⟨le_min hN (by omega), min_le_left _ _⟩
  · intro s1 h
    cases h
    obtain ⟨h1, h2⟩ := hs
    show 0 ≤ max 0 (wrap_int (s.histpos - Int.tdiv cfg.pad_rows 2)) ∧
      max 0 (wrap_int (s.histpos - Int.tdiv cfg.pad_rows 2)) ≤ cfg.NHIST
    rw [wrap_int_of_range _ (by omega) (by omega)]
    exact ⟨le_max_left _ _, max_le hN (by omega)⟩
  · intro k _ s1 h
    cases h
    exact showterm_hist_ok cfg hN s _ hs
  · intro _ s1 h
    cases h
    exact hist_ok_zero cfg hN (directkey_send_frame cfg _ c).2.2.2.2.2.2.2.2.2.1

theorem directkey_hist_ok (cfg : Config) (hN : 0 ≤ cfg.NHIST) (hR : 0 ≤ cfg.pad_rows)
    (hfit : cfg.NHIST + Int.tdiv cfg.pad_rows 2 < 2147483648)
    (s : World) (hs : hist_ok cfg s) :
    ∀ s1, directkey cfg s = some s1 → hist_ok cfg s1 := by
  have hr : ∀ w : World, hist_ok cfg w → hist_ok cfg (readchar cfg w).2 := fun w hw =>
    hist_ok_of_eq cfg (readchar_frame cfg w).2.2.2.2.2.2.2.2.2.2.1 hw
  apply directkey_elim cfg s (fun r => ∀ s1, r = some s1 → hist_ok cfg s1)
  · intro _ _ s1 h
    cases h
    exact hist_ok_of_eq cfg (directkey_locked_frame cfg _ _).2.2.2.2.2.2.1 (hr s hs)
  · intro _ _ s1 h
    exact directkey_esc_hist_ok cfg hN hR hfit _ _ (hr _ (hr s hs)) s1 h
  · intro _ _ s1 h
    cases h
    exact hist_ok_zero cfg hN (directkey_send_frame cfg _ _).2.2.2.2.2.2.2.2.2.1

theorem directkeys_hist_ok (cfg : Config) (hN : 0 ≤ cfg.NHIST) (hR : 0 ≤ cfg.pad_rows)
    (hfit : cfg.NHIST + Int.tdiv cfg.pad_rows 2 < 2147483648) :
    ∀ (k : Nat) (s s1 : World), hist_ok cfg s → directkeys cfg k s = some s1 →
      hist_ok cfg s1 := by
  intro k
  induction k with
  | zero =>
    intro s s1 hs h
    cases h
    exact hs
  | succ k ih =>
    intro s s1 hs h
    unfold directkeys at h
    cases hd : directkey cfg s with
    | none => rw [hd] at h; cases h
    | some w =>
      rw [hd] at h
      exact ih w s1 (directkey_hist_ok cfg hN hR hfit s hs w hd) h

theorem temp_switch_hist_ok (cfg : Config) (hN : 0 ≤ cfg.NHIST) (s : World) (i : Nat)
    (hs : hist_ok cfg s) : hist_ok cfg (temp_switch cfg s i) := by
  unfold temp_switch
  split_ifs
  · exact term_switch_hist_ok cfg hN s _ _ _ _ _ hs
  · exact hs

theorem switch_back_hist_ok (cfg : Config) (hN : 0 ≤ cfg.NHIST) (s : World) (i : Nat)
    (hs : hist_ok cfg s) : hist_ok cfg (switch_back cfg s i) := by
  unfold switch_back
  split_ifs
  · exact term_switch_hist_ok cfg hN s _ _ _ _ _ hs
  · exact hs

theorem poll_slot_hist_ok (cfg : Config) (hN : 0 ≤ cfg.NHIST) (s : World) (rev i : Nat)
    (hs : hist_ok cfg s) : hist_ok cfg (poll_slot cfg s rev i) := by
  unfold poll_slot
  simp only []
  split_ifs
  · exact hs
  · exact switch_back_hist_ok cfg hN _ i (temp_switch_hist_ok cfg hN s i hs)
  · exact switch_back_hist_ok cfg hN _ i (temp_switch_hist_ok cfg hN s i hs)
  · exact switch_back_hist_ok cfg hN _ i (temp_switch_hist_ok cfg hN s i hs)

theorem poll_fold_hist_ok (cfg : Config) (hN : 0 ≤ cfg.NHIST) (rev : Nat → Nat)
    (l : List Nat) : ∀ s : World, hist_ok cfg s →
      hist_ok cfg (l.foldl (fun w i => poll_slot cfg w (rev i) i) s) := by
  induction l with
  | nil => intro s hs; exact hs
  | cons i rest ih =>
    intro s hs
    rw [List.foldl_cons]
    exact ih _ (poll_slot_hist_ok cfg hN s _ i hs)

theorem poll_all_hist_ok (cfg : Config) (hN : 0 ≤ cfg.NHIST) (hR : 0 ≤ cfg.pad_rows)
    (hfit : cfg.NHIST + Int.tdiv cfg.pad_rows 2 < 2147483648)
    (s : World) (p : PollResult) (hs : hist_ok cfg s) :
    ∀ r s1, poll_all cfg s p = some (r, s1) → hist_ok cfg s1 := by
  intro r s1 h
  unfold poll_all at h
  simp only [] at h
  by_cases h1 : p.ret < 1
  · rw [if_pos h1] at h
    cases h
    exact hs
  rw [if_neg h1] at h
  by_cases h2 : p.revents0 &&& (POLLFLAGS - POLLIN) ≠ 0
  · rw [if_pos h2] at h
    cases h
    exact hs
  rw [if_neg h2] at h
  by_cases h3 : p.revents0 &&& POLLIN ≠ 0
  · rw [if_pos h3] at h
    cases hd : directkey cfg s with
    | none => rw [hd] at h; cases h
    | some w =>
      rw [hd] at h
      cases h
      exact poll_fold_hist_ok cfg hN _ _ w (directkey_hist_ok cfg hN hR hfit s hs w hd)
  · rw [if_neg h3] at h
    cases h
    exact poll_fold_hist_ok cfg hN _ _ s hs

theorem signalreceived_hist_ok (cfg : Config) (hN : 0 ≤ cfg.NHIST) (s : World) (n : Signal)
    (hs : hist_ok cfg s) : hist_ok cfg (signalreceived cfg s n) := by
  unfold signalreceived
  split_ifs
  · exact hs
  · cases n
    · exact hist_ok_trace_ext cfg (trace_ext_emit _ _)
        (term_switch_hist_ok cfg hN _ _ _ _ _ _ hs)
    · exact term_switch_hist_ok cfg hN _ _ _ _ _ _ hs
    · exact hs

theorem mainloop_loop_hist_ok (cfg : Config) (hN : 0 ≤ cfg.NHIST) (hR : 0 ≤ cfg.pad_rows)
    (hfit : cfg.NHIST + Int.tdiv cfg.pad_rows 2 < 2147483648)
    (polls : List PollResult) : ∀ s s1 : World, hist_ok cfg s →
      mainloop_loop cfg polls s = some s1 → hist_ok cfg s1 := by
  induction polls with
  | nil =>
    intro s s1 hs h
    unfold mainloop_loop at h
    split_ifs at h
    cases h
    exact hs
  | cons p ps ih =>
    intro s s1 hs h
    unfold mainloop_loop at h
    split_ifs at h
    · cases h
      exact hs
    · cases hp : poll_all cfg s p with
      | none => rw [hp] at h; cases h
      | some q =>
        obtain ⟨r, w⟩ := q
        rw [hp] at h
        have hw := poll_all_hist_ok cfg hN hR hfit s p hs r w hp
        simp only [] at h
        split_ifs at h
        · cases h
          exact hw
        · exact ih w s1 hw h

theorem mainloop_hist_ok (cfg : Config) (hN : 0 ≤ cfg.NHIST) (hR : 0 ≤ cfg.pad_rows)
    (hfit : cfg.NHIST + Int.tdiv cfg.pad_rows 2 < 2147483648)
    (s : World) (args : Option (List String)) (polls : List PollResult) (hs : hist_ok cfg s) :
    ∀ s1, mainloop cfg s args polls = some s1 → hist_ok cfg s1 := by
  intro s1 h
  unfold mainloop at h
  simp only [] at h
  refine mainloop_loop_hist_ok cfg hN hR hfit polls _ s1 ?_ h
  cases args with
  | none => exact hs
  | some a =>
    exact hist_ok_of_eq cfg (exec_cmd_frame cfg _ a).2.2.2.2.2.2.2.2.2.1 hs

theorem pass_kept_of_eq {s s1 : World} (hs : s.passlen ≤ PASS_SIZE - 1)
    (hp : s1.pass = s.pass) (hl : s1.passlen = s.passlen) : pass_kept s s1 := by
  unfold pass_kept
  rw [hp, hl]
  exact ⟨hs, fun _ _ => rfl⟩

theorem pass_kept_trans {s s1 s2 : World} (h1 : pass_kept s s1) (h2 : pass_kept s1 s2) :
    pass_kept s s2 :=
  ⟨h2.1, fun j hj => (h2.2 j hj).trans (h1.2 j hj)⟩

theorem showterm_pass_kept (cfg : Config) (s : World) (n : Nat)
    (hs : s.passlen ≤ PASS_SIZE - 1) : pass_kept s (showterm cfg s n) := by
  by_cases hg : cterm cfg s = n ∨ s.cmdmode = true
  · rw [showterm_guard cfg s n hg]
    exact pass_kept_of_eq hs rfl rfl
  · obtain ⟨-, -, -, -, -, -, -, -, -, -, -, -, h13, h14, -⟩ := showterm_fields cfg s n hg
    exact pass_kept_of_eq hs h13 h14

theorem directkey_locked_pass_kept (cfg : Config) (s : World) (c : Int)
    (hs : s.passlen ≤ PASS_SIZE - 1) : pass_kept s (directkey_locked cfg s c) := by
  unfold PASS_SIZE at hs
  unfold directkey_locked pass_kept PASS_SIZE
  simp only []
  by_cases h1 : c = 13
  · rw [if_pos h1]
    split_ifs
    all_goals
      refine ⟨Nat.zero_le _, fun j hj => ?_⟩
      show store s.pass s.passlen 0 j = s.pass j
      unfold store
      rw [if_neg (by omega)]
  · rw [if_neg h1]
    by_cases h2 : (isprint c && decide (s.passlen + 1 < 1024)) = true
    · rw [if_pos h2]
      simp only [Bool.and_eq_true, decide_eq_true_eq] at h2
      refine ⟨by show s.passlen + 1 ≤ 1024 - 1; omega, fun j hj => ?_⟩
      show store s.pass s.passlen c j = s.pass j
      unfold store
      rw [if_neg (by omega)]
    · rw [if_neg h2]
      exact ⟨hs, fun _ _ => rfl⟩

theorem directkey_esc_pass_kept (cfg : Config) (s : World) (c : Int)
    (hs : s.passlen ≤ PASS_SIZE - 1) :
    ∀ s1, directkey_esc cfg s c = some s1 → pass_kept s s1 := by
  apply directkey_esc_elim cfg s c (fun r => ∀ s1, r = some s1 → pass_kept s s1)
  · intro args s1 h
    cases h
    obtain ⟨-, -, -, -, -, -, h7, h8, -⟩ := exec_cmd_frame cfg s args
    exact pass_kept_of_eq hs h7 h8
  · intro s1 h
    cases h
    exact showterm_pass_kept cfg s _ hs
  · intro s1 h
    cases h
    exact showterm_pass_kept cfg s _ hs
  · intro s1 h
    cases h
    obtain ⟨l, hl⟩ := showtags_trace cfg s
    rw [hl]
    exact pass_kept_of_eq hs rfl rfl
  · intro s1 h
    rcases nextterm_cases cfg s s1 h with rfl | ⟨m, rfl⟩
    · exact pass_kept_of_eq hs rfl rfl
    · exact showterm_pass_kept cfg s m hs
  · intro s1 h
    cases h
    exact pass_kept_of_eq hs rfl rfl
  · intro s1 h
    cases h
    exact pass_kept_of_eq hs rfl rfl
  · intro s1 h
    cases h
    obtain ⟨-, -, -, -, -, -, -, -, h9, h10, -⟩ :=
      term_switch_frame cfg s (cterm cfg s) (cterm cfg s) true false true
    exact pass_kept_of_eq hs h9 h10
  · intro s1 h
    cases h
    exact ⟨Nat.zero_le _, fun _ _ => rfl⟩
  · intro s1 h
    cases h
    exact pass_kept_of_eq hs rfl rfl
  · intro s1 h
    cases h
    exact pass_kept_of_eq hs rfl rfl
  · intro k _ s1 h
    cases h
    exact showterm_pass_kept cfg s _ hs
  · intro _ s1 h
    cases h
    obtain ⟨-, -, -, -, -, -, h7, h8, -⟩ := directkey_send_frame cfg
      (if (mainterm cfg s).isSome then term_send s cfg.ESC else s) c
    have e1 : (if (mainterm cfg s).isSome then term_send s cfg.ESC else s).pass = s.pass := by
      split_ifs <;> rfl
    have e2 : (if (mainterm cfg s).isSome then term_send s cfg.ESC else s).passlen
        = s.passlen := by
      split_ifs <;> rfl
    exact pass_kept_of_eq hs (h7.trans e1) (h8.trans e2)

theorem directkey_pass_kept (cfg : Config) (s : World) (hs : s.passlen ≤ PASS_SIZE - 1) :
    ∀ s1, directkey cfg s = some s1 → pass_kept s s1 := by
  have hr : ∀ w : World, w.passlen ≤ PASS_SIZE - 1 → pass_kept w (readchar cfg w).2 :=
    fun w hw => pass_kept_of_eq hw (readchar_frame cfg w).2.2.2.2.2.2.2.1
      (readchar_frame cfg w).2.2.2.2.2.2.2.2.1
  apply directkey_elim cfg s (fun r => ∀ s1, r = some s1 → pass_kept s s1)
  · intro _ _ s1 h
    cases h
    exact pass_kept_trans (hr s hs) (directkey_locked_pass_kept cfg _ _ (hr s hs).1)
  · intro _ _ s1 h
    exact pass_kept_trans (pass_kept_trans (hr s hs) (hr _ (hr s hs).1))
      (directkey_esc_pass_kept cfg _ _ (hr _ (hr s hs).1).1 s1 h)
  · intro _ _ s1 h
    cases h
    obtain ⟨-, -, -, -, -, -, h7, h8, -⟩ :=
      directkey_send_frame cfg (readchar cfg s).2 (readchar cfg s).1
    exact pass_kept_trans (hr s hs) (pass_kept_of_eq (hr s hs).1 h7 h8)

theorem directkeys_pass_kept (cfg : Config) :
    ∀ (k : Nat) (s s1 : World), s.passlen ≤ PASS_SIZE - 1 → directkeys cfg k s = some s1 →
      pass_kept s s1 := by
  intro k
  induction k with
  | zero =>
    intro s s1 hs h
    cases h
    exact pass_kept_of_eq hs rfl rfl
  | succ k ih =>
    intro s s1 hs h
    unfold directkeys at h
    cases hd : directkey cfg s with
    | none => rw [hd] at h; cases h
    | some w =>
      rw [hd] at h
      have hw := directkey_pass_kept cfg s hs w hd
      exact pass_kept_trans hw (ih w s1 hw.1 h)

theorem strcmp_eq_iff (buf : Nat → Int) :
    ∀ (P l : List Int) (i : Nat), (∀ c ∈ P, c ≠ 0) → (∀ c ∈ l, c ≠ 0) →
      (∀ j, j < l.length → buf (i + j) = l.getD j 0) → buf (i + l.length) = 0 →
      (strcmp_eq P buf i = true ↔ P = l) := by
  intro P
  induction P with
  | nil =>
    intro l i _ hl hb hz
    cases l with
    | nil =>
      simp only [strcmp_eq, List.length_nil, Nat.add_zero] at hz ⊢
      simp [hz]
    | cons c l1 =>
      have h0 : buf i = c := by simpa using hb 0 (by simp)
      have hc : c ≠ 0 := hl c (by simp)
      simp [strcmp_eq, h0, hc]
  | cons p P1 ih =>
    intro l i hP hl hb hz
    have hp : p ≠ 0 := hP p (by simp)
    cases l with
    | nil =>
      simp only [List.length_nil, Nat.add_zero] at hz
      simp [strcmp_eq, hp, hz, Ne.symm hp]
    | cons c l1 =>
      have h0 : buf i = c := by simpa using hb 0 (by simp)
      have hrec := ih l1 (i + 1) (fun x hx => hP x (by simp [hx])) (fun x hx => hl x (by simp [hx]))
        (fun j hj => by
          have := hb (j + 1) (by simp; omega)
          simpa [Nat.add_assoc, Nat.add_comm 1 j] using this)
        (by
          have : i + 1 + l1.length = i + (c :: l1).length := by simp; omega
          rw [this]; exact hz)
      simp only [strcmp_eq, hp, if_false, h0, Bool.and_eq_true, beq_iff_eq, hrec,
        List.cons.injEq]
      constructor
      · rintro ⟨a, b⟩; exact ⟨a.symm, b⟩
      · rintro ⟨a, b⟩; exact ⟨a.symm, b⟩

theorem readchar_some (cfg : Config) (s : World) (b : Nat) (rest : List (Option Nat))
    (h : s.stdin = some b :: rest) :
    readchar cfg s = (to_char cfg (b : Int), { s with stdin := rest }) := by
  unfold readchar
  rw [h]

theorem directkey_locked_step (cfg : Config) (s : World) (hP : cfg.PASS.isSome = true)
    (hl : s.locked = true) :
    directkey cfg s = some (directkey_locked cfg (readchar cfg s).2 (readchar cfg s).1) := by
  unfold directkey
  have h : (readchar cfg s).2.locked = true := by
    rw [(readchar_frame cfg s).2.2.2.2.2.2.1, hl]
  simp only [hP, h, Bool.and_self, if_true]

theorem typed_nil (cfg : Config) (acc : List Int) (h : acc.length ≤ PASS_SIZE - 1) :
    typed cfg acc [] = acc := by
  unfold typed
  simp only [List.map_nil, List.filter_nil, List.append_nil]
  exact List.take_of_length_le h

theorem typed_cons_stored (cfg : Config) (acc : List Int) (b : Nat) (cs : List Nat)
    (h : isprint (to_char cfg (b : Int)) = true) :
    typed cfg acc (b :: cs) = typed cfg (acc ++ [to_char cfg (b : Int)]) cs := by
  unfold typed
  simp only [List.map_cons, List.filter_cons, h, if_true, List.append_assoc,
    List.singleton_append]

theorem typed_cons_skipped (cfg : Config) (acc : List Int) (b : Nat) (cs : List Nat)
    (hlen : acc.length ≤ PASS_SIZE - 1)
    (h : ¬ (isprint (to_char cfg (b : Int)) = true ∧ acc.length + 1 < PASS_SIZE)) :
    typed cfg acc (b :: cs) = typed cfg acc cs := by
  unfold typed
  by_cases hp : isprint (to_char cfg (b : Int)) = true
  · have hfull : acc.length = PASS_SIZE - 1 := by
      unfold PASS_SIZE at h hlen ⊢
      have : ¬ (acc.length + 1 < 1024) := fun x => h ⟨hp, x⟩
      omega
    rw [← hfull, List.take_left', List.take_left'] <;> rfl
  · simp only [List.map_cons, List.filter_cons, hp, if_false, Bool.false_eq_true]

theorem locked_feed (cfg : Config) (hP : cfg.PASS.isSome = true) :
    ∀ (cs : List Nat) (s : World) (acc : List Int) (rest : List (Option Nat)),
      s.locked = true → s.passlen = acc.length → acc.length ≤ PASS_SIZE - 1 →
      (∀ j, j < acc.length → s.pass j = acc.getD j 0) →
      (∀ b ∈ cs, to_char cfg (b : Int) ≠ 13) →
      s.stdin = cs.map some ++ rest →
      ∃ s1, directkeys cfg cs.length s = some s1 ∧ s1.locked = true ∧ s1.stdin = rest ∧
        s1.passlen = (typed cfg acc cs).length ∧
        ∀ j, j < (typed cfg acc cs).length → s1.pass j = (typed cfg acc cs).getD j 0 := by
  intro cs
  induction cs with
  | nil =>
    intro s acc rest hl hlen hle hbuf _ hin
    rw [typed_nil cfg acc hle]
    exact ⟨s, rfl, hl, by simpa using hin, hlen, hbuf⟩
  | cons b cs1 ih =>
    intro s acc rest hl hlen hle hbuf hcr hin
    have hin1 : s.stdin = some b :: (cs1.map some ++ rest) := by simpa using hin
    have hstep := directkey_locked_step cfg s hP hl
    rw [readchar_some cfg s b _ hin1] at hstep
    have hc13 : to_char cfg (b : Int) ≠ 13 := hcr b (by simp)
    have hcr1 : ∀ x ∈ cs1, to_char cfg (x : Int) ≠ 13 := fun x hx => hcr x (by simp [hx])
    simp only [List.length_cons]
    unfold directkeys
    rw [hstep, Option.some_bind]
    unfold directkey_locked
    simp only []
    rw [if_neg hc13]
    by_cases hpr : (isprint (to_char cfg (b : Int)) && decide (s.passlen + 1 < PASS_SIZE)) = true
    · rw [if_pos hpr]
      simp only [Bool.and_eq_true, decide_eq_true_eq] at hpr
      rw [typed_cons_stored cfg acc b cs1 hpr.1]
      refine ih _ (acc ++ [to_char cfg (b : Int)]) rest ?_ ?_ ?_ ?_ ?_ ?_
      · exact hl
      · simp [hlen]
      · have := hpr.2
        unfold PASS_SIZE at this ⊢
        simp only [List.length_append, List.length_singleton]
        omega
      · intro j hj
        simp only [List.length_append, List.length_singleton] at hj
        show store s.pass s.passlen (to_char cfg (b : Int)) j = _
        unfold store
        by_cases hj2 : j = s.passlen
        · rw [if_pos hj2, hj2, hlen]
          simp [List.getD_eq_getElem?_getD]
        · rw [if_neg hj2]
          have hj3 : j < acc.length := by omega
          rw [hbuf j hj3]
          simp [List.getD_eq_getElem?_getD, List.getElem?_append_left hj3]
      · exact hcr1
      · rfl
    · rw [if_neg hpr]
      have hsk : ¬ (isprint (to_char cfg (b : Int)) = true ∧ acc.length + 1 < PASS_SIZE) := by
        intro hx
        apply hpr
        simp only [Bool.and_eq_true, decide_eq_true_eq]
        rw [hlen]
        exact hx
      rw [typed_cons_skipped cfg acc b cs1 hle hsk]
      exact ih _ acc rest hl hlen hle hbuf hcr1 rfl

theorem directkeys_succ_last (cfg : Config) :
    ∀ (k : Nat) (s : World),
      directkeys cfg (k + 1) s = (directkeys cfg k s).bind (directkey cfg) := by
  intro k
  induction k with
  | zero =>
    intro s
    simp [directkeys]
  | succ k ih =>
    intro s
    rw [directkeys]
    cases hd : directkey cfg s with
    | none => simp [directkeys, hd]
    | some w =>
      rw [Option.some_bind, ih w]
      conv_rhs => rw [directkeys, hd, Option.some_bind]

theorem to_char_of_lt (cfg : Config) (b : Nat) (h : b < 128) : to_char cfg (b : Int) = b := by
  unfold to_char
  have h1 : (b : Int) % 256 = b := Int.emod_eq_of_lt (by omega) (by omega)
  simp only [h1]
  have h2 : ¬ (128 : Int) ≤ b := by omega
  simp [h2]

theorem typed_ne_zero (cfg : Config) (cs : List Nat) : ∀ c ∈ typed cfg [] cs, c ≠ 0 := by
  intro c hc
  unfold typed at hc
  have h1 := List.mem_of_mem_take hc
  simp only [List.nil_append, List.mem_filter] at h1
  have h2 := h1.2
  unfold isprint at h2
  simp only [Bool.and_eq_true, decide_eq_true_eq] at h2
  omega

theorem typed_printable (cfg : Config) (cs : List Nat) (hpr : ∀ b ∈ cs, 32 ≤ b ∧ b ≤ 126)
    (hlen : cs.length ≤ PASS_SIZE - 1) :
    typed cfg [] cs = cs.map (fun (b : Nat) => (b : Int)) := by
  unfold typed
  have hmap : cs.map (fun (b : Nat) => to_char cfg (b : Int))
      = cs.map (fun (b : Nat) => (b : Int)) := by
    apply List.map_congr_left
    intro b hb
    exact to_char_of_lt cfg b (by have := hpr b hb; omega)
  rw [List.nil_append, hmap]
  have hfil : (cs.map (fun (b : Nat) => (b : Int))).filter isprint
      = cs.map (fun (b : Nat) => (b : Int)) := by
    rw [List.filter_eq_self]
    intro c hc
    rw [List.mem_map] at hc
    obtain ⟨b, hb, rfl⟩ := hc
    have := hpr b hb
    unfold isprint
    simp only [Bool.and_eq_true, decide_eq_true_eq]
    omega
  rw [hfil]
  exact List.take_of_length_le (by simpa using hlen)

theorem locked_return (cfg : Config) (P L : List Int) (s : World) (rest : List (Option Nat))
    (hP : cfg.PASS = some P) (hP0 : ∀ c ∈ P, c ≠ 0) (hL0 : ∀ c ∈ L, c ≠ 0)
    (hl : s.locked = true) (hlen : s.passlen = L.length)
    (hbuf : ∀ j, j < L.length → s.pass j = L.getD j 0) (hin : s.stdin = some 13 :: rest) :
    ∃ s1, directkey cfg s = some s1 ∧ (s1.locked = false ↔ L = P) ∧ s1.passlen = 0 ∧
      s1.stdin = rest := by
  have hstep := directkey_locked_step cfg s (by rw [hP]; rfl) hl
  rw [readchar_some cfg s 13 _ hin] at hstep
  have h13 : to_char cfg ((13 : Nat) : Int) = 13 := to_char_of_lt cfg 13 (by decide)
  rw [h13] at hstep
  refine ⟨_, hstep, ?_, ?_, ?_⟩
  · unfold directkey_locked
    simp only [if_true, hP, Option.getD_some]
    have hiff := strcmp_eq_iff (store s.pass s.passlen 0) P L 0 hP0 hL0
      (fun j hj => by
        unfold store
        rw [Nat.zero_add, if_neg (by omega)]
        exact hbuf j hj)
      (by
        unfold store
        rw [Nat.zero_add, if_pos hlen.symm])
    by_cases hs : strcmp_eq P (store s.pass s.passlen 0) 0 = true
    · rw [if_pos hs]
      simp only [true_iff]
      exact (hiff.mp hs).symm
    · rw [if_neg hs]
      simp only [hl, Bool.true_eq_false, false_iff]
      intro he
      exact hs (hiff.mpr he.symm)
  · unfold directkey_locked
    simp only [if_true]
  · unfold directkey_locked
    simp only [if_true]
    split_ifs <;> rfl

/-- C6, as amended: in locked mode with an empty passcode buffer, reading the bytes
of a sequence `cs` that holds no `\r` and then `\r` clears `locked` exactly when the
printable characters of `cs`, cut to the first 1023, are the passcode `PASS`, and
leaves `locked` set otherwise; bytes that are not printable are skipped. `passlen` is
0 afterwards in both cases. For `cs` of at most 1023 printable characters the
characters compared are those of `cs` itself. -/
theorem C6_unlock_on_typed_passcode (cfg : Config) (P : List Int) (cs : List Nat)
    (s : World) (rest : List (Option Nat)) (hP : cfg.PASS = some P) (hP0 : ∀ c ∈ P, c ≠ 0)
    (hl : s.locked = true) (h0 : s.passlen = 0)
    (hcr : ∀ b ∈ cs, to_char cfg (b : Int) ≠ 13)
    (hin : s.stdin = cs.map some ++ some 13 :: rest) :
    (∃ s1, directkeys cfg (cs.length + 1) s = some s1 ∧
      (s1.locked = false ↔ typed cfg [] cs = P) ∧ s1.passlen = 0 ∧ s1.stdin = rest) ∧
    ((∀ b ∈ cs, 32 ≤ b ∧ b ≤ 126) → cs.length ≤ PASS_SIZE - 1 →
      typed cfg [] cs = cs.map (fun (b : Nat) => (b : Int))) := by
  refine ⟨?_, typed_printable cfg cs⟩
  obtain ⟨s1, h1, h2, h3, h4, h5⟩ := locked_feed cfg (by rw [hP]; rfl) cs s [] (some 13 :: rest)
    hl (by simpa using h0) (Nat.zero_le _) (fun j hj => absurd hj (Nat.not_lt_zero j)) hcr hin
  obtain ⟨s2, k1, k2, k3, k4⟩ := locked_return cfg P (typed cfg [] cs) s1 rest hP hP0
    (typed_ne_zero cfg cs) h2 h4 h5 h3
  refine ⟨s2, ?_, k2, k3, k4⟩
  rw [directkeys_succ_last, h1, Option.some_bind]
  exact k1

/-- Witness of C6 on `cfg2` (passcode `pw`): the bytes `p`, `w` and `\r` unlock. -/
theorem C6_unlock_on_typed_passcode_witness :
    ∃ s1, directkeys cfg2 3 (locked2 0 [some 112, some 119, some 13]) = some s1 ∧
      (s1.locked = false ↔ typed cfg2 [] [112, 119] = [112, 119]) ∧ s1.passlen = 0 ∧
      s1.stdin = [] :=
  (C6_unlock_on_typed_passcode cfg2 [112, 119] [112, 119]
    (locked2 0 [some 112, some 119, some 13]) [] rfl (by decide) rfl rfl (by decide) rfl).1

/-- C6, refuted as stated: on `cfg2` (passcode `pw`), locked with an empty buffer, the
sequence `p`, tab, `w` differs from the passcode, yet reading it and then `\r`
clears `locked`. -/
theorem C6_unprintable_byte_ignored :
    ([112, 9, 119] : List Int) ≠ [112, 119] ∧
    (locked2 0 [some 112, some 9, some 119, some 13]).locked = true ∧
    (locked2 0 [some 112, some 9, some 119, some 13]).passlen = 0 ∧
    (directkeys cfg2 4 (locked2 0 [some 112, some 9, some 119, some 13])).map
      (fun w => (w.locked, w.passlen)) = some (false, 0) := by
  decide

theorem directkey_esc_other (cfg : Config) (s : World) (c : Int) (hcmd : c ∉ command_bytes)
    (htag : strchr cfg cfg.tags c = none) :
    directkey_esc cfg s c = some (directkey_send cfg
      (if (mainterm cfg s).isSome then term_send s cfg.ESC else s) c) := by
  unfold command_bytes at hcmd
  simp only [List.mem_cons, List.mem_singleton, not_or, List.mem_nil_iff, not_false_eq_true,
    and_true] at hcmd
  obtain ⟨h1, h2, h3, h4, h5, h6, h7, h8, h9, h10, h11, h12, h13, h14⟩ := hcmd
  unfold directkey_esc
  rw [if_neg h1, if_neg h2, if_neg h3, if_neg (by rintro (h | h); exact h4 h; exact h5 h),
    if_neg h6, if_neg h7, if_neg h8, if_neg h9, if_neg h10, if_neg h11, if_neg h12,
    if_neg h13, if_neg h14, htag]

theorem directkey_esc_step (cfg : Config) (s : World)
    (hmode : (cfg.PASS.isSome && s.locked) = false) (hesc : (readchar cfg s).1 = cfg.ESC) :
    directkey cfg s = directkey_esc cfg (readchar cfg (readchar cfg s).2).2
      (readchar cfg (readchar cfg s).2).1 := by
  unfold directkey
  have hl : (readchar cfg s).2.locked = s.locked := (readchar_frame cfg s).2.2.2.2.2.2.1
  simp only [hl, hmode, Bool.false_eq_true, if_false, hesc, if_true]

theorem directkey_send_step (cfg : Config) (s : World)
    (hmode : (cfg.PASS.isSome && s.locked) = false) (hesc : (readchar cfg s).1 ≠ cfg.ESC) :
    directkey cfg s = some (directkey_send cfg (readchar cfg s).2 (readchar cfg s).1) := by
  unfold directkey
  have hl : (readchar cfg s).2.locked = s.locked := (readchar_frame cfg s).2.2.2.2.2.2.1
  simp only [hl, hmode, Bool.false_eq_true, if_false, hesc]

theorem directkey_send_calls (cfg : Config) (s : World) (c : Int) :
    (directkey_send cfg s c).trace
      = s.trace ++ (if c ≠ -1 ∧ TERMOPEN s (cterm cfg s) = true then [Event.term_send c]
          else []) := by
  unfold directkey_send mainterm term_send emit TERMOPEN cterm
  simp only []
  by_cases hc : c ≠ -1
  · by_cases ho : (s.termfd (s.tops s.ctag * NTAGS cfg + s.ctag) != 0) = true
    · simp [hc, ho]
    · simp [hc, ho]
  · simp [hc]

/-- In passthrough mode a byte read that is not the escape byte resets `histpos` and,
when its `char` value is not -1 and the live slot is open, is sent with one
`term_send`; a failed read sends nothing. The `char` value is -1 exactly for the
byte 255 where `char` is signed. -/
theorem directkey_passthrough (cfg : Config) (s : World)
    (hmode : (cfg.PASS.isSome && s.locked) = false) (hesc : (readchar cfg s).1 ≠ cfg.ESC) :
    ∃ s1, directkey cfg s = some s1 ∧ s1.histpos = 0 ∧
      calls_since s s1
        = (if (readchar cfg s).1 ≠ -1 ∧ TERMOPEN s (cterm cfg s) = true
            then [Event.term_send (readchar cfg s).1] else []) ∧
      (∀ b : Nat, b < 256 → (to_char cfg (b : Int) % 256 = b ∧
        (to_char cfg (b : Int) = -1 ↔ cfg.char_signed = true ∧ b = 255))) := by
  refine ⟨_, directkey_send_step cfg s hmode hesc,
    (directkey_send_frame cfg _ _).2.2.2.2.2.2.2.2.2.1, ?_, ?_⟩
  · unfold calls_since
    rw [directkey_send_calls, (readchar_frame cfg s).2.2.2.2.2.2.2.2.2.2.2.2.1,
      List.drop_left, readchar_cterm]
    have : TERMOPEN (readchar cfg s).2 = TERMOPEN s := by
      unfold TERMOPEN
      rw [(readchar_frame cfg s).1]
    rw [this]
  · intro b hb
    unfold to_char
    have h1 : (b : Int) % 256 = b := Int.emod_eq_of_lt (by omega) (by omega)
    simp only [h1]
    cases cfg.char_signed
    · simp only [Bool.false_and, Bool.false_eq_true, if_false, h1, false_and, iff_false,
        true_and]
      omega
    · by_cases h2 : (128 : Int) ≤ b
      · simp only [Bool.true_and, decide_eq_true_eq, h2, if_true, true_and]
        constructor
        · omega
        · omega
      · simp only [Bool.true_and, decide_eq_true_eq, h2, if_false, h1, true_and]
        omega

/-- C8, the code at the failing input: on `cfg2`, where `char` is signed, in
passthrough mode with the live slot open, the byte 255 is read as -1, the value of a
failed read, and `directkey` resets `histpos` but sends nothing; the byte 254 is sent
(as the `char` value -2). -/
theorem C8_byte_255_not_forwarded :
    cfg2.char_signed = true ∧
    TERMOPEN (world2 [0] false 7 [some 255]) (cterm cfg2 (world2 [0] false 7 [some 255]))
      = true ∧
    (readchar cfg2 (world2 [0] false 7 [some 255])).1 = -1 ∧
    (directkey cfg2 (world2 [0] false 7 [some 255])).map (fun w => (w.histpos, w.trace))
      = some (0, []) ∧
    (directkey cfg2 (world2 [0] false 7 [some 254])).map (fun w => (w.histpos, w.trace))
      = some (0, [Event.term_send (-2)]) := by
  decide

theorem esc_other_effect (cfg : Config) (w : World) (c : Int) :
    (directkey_send cfg (if (mainterm cfg w).isSome then term_send w cfg.ESC else w) c).trace
      = w.trace ++ (if TERMOPEN w (cterm cfg w) = true then
          Event.term_send cfg.ESC :: (if c ≠ -1 then [Event.term_send c] else [])
        else []) ∧
    (directkey_send cfg (if (mainterm cfg w).isSome then term_send w cfg.ESC else w) c).ctag
      = w.ctag ∧
    (directkey_send cfg (if (mainterm cfg w).isSome then term_send w cfg.ESC else w) c).ltag
      = w.ltag ∧
    (directkey_send cfg (if (mainterm cfg w).isSome then term_send w cfg.ESC else w) c).tops
      = w.tops ∧
    (directkey_send cfg (if (mainterm cfg w).isSome then term_send w cfg.ESC else w) c).locked
      = w.locked ∧
    (directkey_send cfg (if (mainterm cfg w).isSome then term_send w cfg.ESC else w) c).exitit
      = w.exitit ∧
    (directkey_send cfg (if (mainterm cfg w).isSome then term_send w cfg.ESC else w) c).histpos
      = 0 := by
  obtain ⟨f1, f2, f3, f4, -, f6, -, -, -, f10, -⟩ := directkey_send_frame cfg
    (if (mainterm cfg w).isSome then term_send w cfg.ESC else w) c
  rw [directkey_send_calls, f1, f2, f3, f4, f6, f10]
  by_cases ho : TERMOPEN w (cterm cfg w) = true
  · have hm : (mainterm cfg w).isSome = true := by
      unfold mainterm
      rw [if_pos ho]
      rfl
    simp only [hm, if_true, ho]
    refine ⟨?_, rfl, rfl, rfl, rfl, rfl, trivial⟩
    have e1 : TERMOPEN (term_send w cfg.ESC) (cterm cfg (term_send w cfg.ESC)) = true := ho
    rw [e1]
    by_cases hc : c ≠ -1
    · simp [hc, term_send, emit]
    · simp [hc, term_send, emit]
  · have hm : (mainterm cfg w).isSome = false := by
      unfold mainterm
      rw [if_neg ho]
      rfl
    simp only [hm, Bool.false_eq_true, if_false, ho, and_false, List.append_nil]
    exact ⟨trivial, trivial, trivial, trivial, trivial, trivial, trivial⟩

/-- C9, as amended: when the byte `c` read after the escape byte (the read-failure
value -1 included) is not a fixed command byte and `strchr(tags, c)` finds nothing
(`c` is neither a tag label nor NUL), `directkey` returns; if the live slot is open it
sends the escape byte and then, unless `c` is -1, the byte `c` itself, and nothing
else; if the live slot is closed it sends nothing; `ctag`, `ltag`, `tops`, `locked`
and `exitit` are as before, and `histpos` is 0. -/
theorem C9_unmatched_escape_passes_both (cfg : Config) (s : World)
    (hmode : (cfg.PASS.isSome && s.locked) = false) (hesc : (readchar cfg s).1 = cfg.ESC)
    (hcmd : (readchar cfg (readchar cfg s).2).1 ∉ command_bytes)
    (htag : strchr cfg cfg.tags (readchar cfg (readchar cfg s).2).1 = none) :
    ∃ s1, directkey cfg s = some s1 ∧
      calls_since s s1 = (if TERMOPEN s (cterm cfg s) = true then
          Event.term_send cfg.ESC ::
            (if (readchar cfg (readchar cfg s).2).1 ≠ -1
              then [Event.term_send (readchar cfg (readchar cfg s).2).1] else [])
        else []) ∧
      s1.ctag = s.ctag ∧ s1.ltag = s.ltag ∧ s1.tops = s.tops ∧ s1.locked = s.locked ∧
      s1.exitit = s.exitit ∧ s1.histpos = 0 := by
  obtain ⟨a1, a2, a3, a4, a5, -, a7, -, -, -, -, -, a13, -⟩ := readchar_frame cfg s
  obtain ⟨b1, b2, b3, b4, b5, -, b7, -, -, -, -, -, b13, -⟩ :=
    readchar_frame cfg (readchar cfg s).2
  obtain ⟨e1, e2, e3, e4, e5, e6, e7⟩ := esc_other_effect cfg (readchar cfg (readchar cfg s).2).2
    (readchar cfg (readchar cfg s).2).1
  refine ⟨_, (directkey_esc_step cfg s hmode hesc).trans (directkey_esc_other cfg _ _ hcmd htag),
    ?_, by rw [e2, b3, a3], by rw [e3, b4, a4], by rw [e4, b2, a2], by rw [e5, b7, a7],
    by rw [e6, b5, a5], e7⟩
  unfold calls_since
  rw [e1, b13, a13, List.drop_left, readchar_cterm, readchar_cterm]
  have : TERMOPEN (readchar cfg (readchar cfg s).2).2 = TERMOPEN s := by
    unfold TERMOPEN
    rw [b1, a1]
  rw [this]

/-- Witness of C9 on `cfg2`: escape then `z` with the live slot open. -/
theorem C9_unmatched_escape_passes_both_witness :
    ∃ s1, directkey cfg2 (world2 [0] false 7 [some 27, some 122]) = some s1 ∧
      calls_since (world2 [0] false 7 [some 27, some 122]) s1
        = [Event.term_send 27, Event.term_send 122] ∧
      s1.ctag = 0 ∧ s1.ltag = 0 ∧ s1.locked = false ∧ s1.exitit = false ∧ s1.histpos = 0 := by
  obtain ⟨s1, h1, h2, h3, h4, -, h6, h7, h8⟩ := C9_unmatched_escape_passes_both cfg2
    (world2 [0] false 7 [some 27, some 122]) rfl (by decide) (by decide) (by decide)
  exact ⟨s1, h1, h2.trans (by decide), h3, h4, h6, h7, h8⟩

/-- C9, refuted as stated: on `cfg2` with the live slot open, escape followed by `z`,
which is no command byte and no tag label, sends two bytes to the slot, the escape
byte and `z`. -/
theorem C9_following_byte_also_sent :
    (122 : Int) ∉ command_bytes ∧ (122 : Int) ∉ cfg2.tags ∧
    (directkey cfg2 (world2 [0] false 7 [some 27, some 122])).map (fun w => w.trace)
      = some [Event.term_send 27, Event.term_send 122] := by
  decide

theorem ltag_follows_of_eq {s s1 : World} (h : s1.ltag = s.ltag) : ltag_follows s s1 :=
  fun hne => absurd h hne

theorem ltag_follows_congr {s w s1 : World} (hl : w.ltag = s.ltag) (hc : w.ctag = s.ctag)
    (h : ltag_follows w s1) : ltag_follows s s1 := by
  unfold ltag_follows at h ⊢
  rw [hl, hc] at h
  exact h

theorem showterm_ltag_follows (cfg : Config) (s : World) (n : Nat) :
    ltag_follows s (showterm cfg s n) := by
  by_cases hg : cterm cfg s = n ∨ s.cmdmode = true
  · rw [showterm_guard cfg s n hg]
    exact ltag_follows_of_eq rfl
  · obtain ⟨-, -, -, -, h5, -, h7, -⟩ := showterm_fields cfg s n hg
    unfold ltag_follows
    rw [h5, h7]
    by_cases hc : s.ctag ≠ n % NTAGS cfg
    · rw [if_pos hc]
      exact fun _ => ⟨fun e => hc e.symm, rfl⟩
    · rw [if_neg hc]
      exact fun hne => absurd rfl hne

theorem nextterm_ltag_follows (cfg : Config) (s s1 : World) (h : nextterm cfg s = some s1) :
    ltag_follows s s1 := by
  rcases nextterm_cases cfg s s1 h with rfl | ⟨m, rfl⟩
  · exact ltag_follows_of_eq rfl
  · exact showterm_ltag_follows cfg s m

theorem directkey_esc_ltag_follows (cfg : Config) (s : World) (c : Int) :
    ∀ s1, directkey_esc cfg s c = some s1 → ltag_follows s s1 := by
  apply directkey_esc_elim cfg s c (fun r => ∀ s1, r = some s1 → ltag_follows s s1)
  · intro args s1 h
    cases h
    exact ltag_follows_of_eq (exec_cmd_frame cfg s args).2.2.1
  · intro s1 h
    cases h
    exact showterm_ltag_follows cfg s _
  · intro s1 h
    cases h
    exact showterm_ltag_follows cfg s _
  · intro s1 h
    cases h
    obtain ⟨l, hl⟩ := showtags_trace cfg s
    rw [hl]
    exact ltag_follows_of_eq rfl
  · intro s1 h
    exact nextterm_ltag_follows cfg s s1 h
  · intro s1 h
    cases h
    exact ltag_follows_of_eq rfl
  · intro s1 h
    cases h
    exact ltag_follows_of_eq rfl
  · intro s1 h
    cases h
    exact ltag_follows_of_eq
      (term_switch_frame cfg s (cterm cfg s) (cterm cfg s) true false true).2.1
  · intro s1 h
    cases h
    exact ltag_follows_of_eq rfl
  · intro s1 h
    cases h
    exact ltag_follows_of_eq rfl
  · intro s1 h
    cases h
    exact ltag_follows_of_eq rfl
  · intro k _ s1 h
    cases h
    exact showterm_ltag_follows cfg s _
  · intro _ s1 h
    cases h
    exact ltag_follows_of_eq (esc_other_effect cfg s c).2.2.1

theorem directkey_ltag_follows (cfg : Config) (s : World) :
    ∀ s1, directkey cfg s = some s1 → ltag_follows s s1 := by
  obtain ⟨-, -, a3, a4, -⟩ := readchar_frame cfg s
  obtain ⟨-, -, b3, b4, -⟩ := readchar_frame cfg (readchar cfg s).2
  apply directkey_elim cfg s (fun r => ∀ s1, r = some s1 → ltag_follows s s1)
  · intro _ _ s1 h
    cases h
    exact ltag_follows_of_eq ((directkey_locked_frame cfg _ _).2.2.1.trans a4)
  · intro _ _ s1 h
    exact ltag_follows_congr (b4.trans a4) (b3.trans a3)
      (directkey_esc_ltag_follows cfg _ _ s1 h)
  · intro _ _ s1 h
    cases h
    exact ltag_follows_of_eq ((directkey_send_frame cfg _ _).2.2.1.trans a4)

theorem altterm_mod (cfg : Config) (n : Nat) :
    altterm cfg n % NTAGS cfg = n % NTAGS cfg := by
  unfold altterm
  by_cases h : n < NTAGS cfg
  · rw [if_pos h, Nat.add_mod_right]
  · rw [if_neg h]
    have e : n = (n - NTAGS cfg) + NTAGS cfg := by omega
    conv_rhs => rw [e, Nat.add_mod_right]

theorem cterm_mod (cfg : Config) (s : World) (h : s.ctag < NTAGS cfg) :
    cterm cfg s % NTAGS cfg = s.ctag := by
  unfold cterm
  rw [Nat.mul_add_mod_of_lt h]

/-- C11: for `showterm`, `showtag`, `nextterm` and `directkey` on every state and
input, if `ltag` is changed by the operation then `ctag` is changed by it too and the
new `ltag` is the old `ctag`; and with `ctag` a tag index the same-tag bank toggle
`showterm(altterm(cterm()))` leaves `ltag` as it was. -/
theorem C11_ltag_follows_ctag (cfg : Config) (s : World) :
    (∀ n, ltag_follows s (showterm cfg s n)) ∧
    (∀ n, ltag_follows s (showtag cfg s n)) ∧
    (∀ s1, nextterm cfg s = some s1 → ltag_follows s s1) ∧
    (∀ s1, directkey cfg s = some s1 → ltag_follows s s1) ∧
    (s.ctag < NTAGS cfg → (showterm cfg s (altterm cfg (cterm cfg s))).ltag = s.ltag) := by
  refine ⟨showterm_ltag_follows cfg s, fun n => showterm_ltag_follows cfg s _,
    nextterm_ltag_follows cfg s, directkey_ltag_follows cfg s, fun hc => ?_⟩
  by_cases hg : cterm cfg s = altterm cfg (cterm cfg s) ∨ s.cmdmode = true
  · rw [showterm_guard cfg s _ hg]
  · obtain ⟨-, -, -, -, -, -, h7, -⟩ := showterm_fields cfg s _ hg
    rw [h7, altterm_mod, cterm_mod cfg s hc, if_neg (fun h => h rfl)]

/-- Witness of C11 on `cfg2`: from live slot 0 the command escape then `b` shows
tag 1, after which `ltag` is the old `ctag` 0; the bank toggle keeps `ltag`. -/
theorem C11_ltag_follows_ctag_witness :
    (showterm cfg2 { world2 [0] false 0 [] with ltag := 1 } 1).ltag = 0 ∧
    (showterm cfg2 { world2 [0] false 0 [] with ltag := 1 }
      (altterm cfg2 (cterm cfg2 { world2 [0] false 0 [] with ltag := 1 }))).ltag = 1 :=
  ⟨((C11_ltag_follows_ctag cfg2 { world2 [0] false 0 [] with ltag := 1 }).1 1
      (by decide)).2,
    (C11_ltag_follows_ctag cfg2 { world2 [0] false 0 [] with ltag := 1 }).2.2.2.2
      (by decide)⟩

/-- C12: when `n` is the live slot or the process is in one-shot mode, `showterm(n)`
returns the state it was given: no engine call is made and no field changes; and
`showterm(n)` run a second time changes nothing. -/
theorem C12_showterm_noop (cfg : Config) (s : World) (n : Nat) :
    ((n = cterm cfg s ∨ s.cmdmode = true) →
      showterm cfg s n = s ∧ calls_since s (showterm cfg s n) = []) ∧
    showterm cfg (showterm cfg s n) n = showterm cfg s n := by
  constructor
  · intro h
    have hg : cterm cfg s = n ∨ s.cmdmode = true := h.imp Eq.symm id
    rw [showterm_guard cfg s n hg]
    exact ⟨rfl, by unfold calls_since; exact List.drop_length _⟩
  · by_cases hg : cterm cfg s = n ∨ s.cmdmode = true
    · rw [showterm_guard cfg s n hg, showterm_guard cfg s n hg]
    · exact showterm_guard cfg _ n (Or.inl (cterm_after_show cfg s n hg))

/-- Witness of C12 on `cfg2`: `showterm 0` with live slot 0, and `showterm 3` in
one-shot mode, return the state unchanged. -/
theorem C12_showterm_noop_witness :
    showterm cfg2 (world2 [0] false 5 []) 0 = world2 [0] false 5 [] ∧
    showterm cfg2 { world2 [0] false 5 [] with cmdmode := true } 3
      = { world2 [0] false 5 [] with cmdmode := true } :=
  ⟨((C12_showterm_noop cfg2 (world2 [0] false 5 []) 0).1 (Or.inl (by decide))).1,
    ((C12_showterm_noop cfg2 { world2 [0] false 5 [] with cmdmode := true } 3).1
      (Or.inr rfl)).1⟩

theorem cyc_ne (c N k : Nat) (hc : c < N) (h1 : 1 ≤ k) (h2 : k < N) : (c + k) % N ≠ c := by
  by_cases h : c + k < N
  · rw [Nat.mod_eq_of_lt h]
    omega
  · rw [Nat.mod_eq_sub_mod (by omega), Nat.mod_eq_of_lt (by omega)]
    omega

theorem cyc_succ (c N i : Nat) : ((c + i) % N + 1) % N = (c + (i + 1)) % N := by
  rw [Nat.mod_add_mod, Nat.add_assoc]

theorem nextterm_loop_finds (cfg : Config) (s : World) (hc : cterm cfg s < NTERMS cfg)
    (k : Nat) (hk : k < NTERMS cfg)
    (hopen : TERMOPEN s ((cterm cfg s + k) % NTERMS cfg) = true) :
    ∀ (d i : Nat), i + d = k → 1 ≤ i →
      (∀ j, i ≤ j → j < k → TERMOPEN s ((cterm cfg s + j) % NTERMS cfg) = false) →
      ∀ fuel, d + 1 ≤ fuel →
        nextterm_loop cfg s fuel ((cterm cfg s + i) % NTERMS cfg)
          = some (showterm cfg s ((cterm cfg s + k) % NTERMS cfg)) := by
  intro d
  induction d with
  | zero =>
    intro i hi h1 _ fuel hf
    have hik : i = k := by omega
    subst hik
    obtain ⟨f, rfl⟩ : ∃ f, fuel = f + 1 := ⟨fuel - 1, by omega⟩
    unfold nextterm_loop
    rw [if_neg (cyc_ne _ _ _ hc h1 hk), if_pos hopen]
  | succ d ih =>
    intro i hi h1 hcl fuel hf
    obtain ⟨f, rfl⟩ : ∃ f, fuel = f + 1 := ⟨fuel - 1, by omega⟩
    unfold nextterm_loop
    have hcl_i := hcl i (le_refl i) (by omega)
    rw [if_neg (cyc_ne _ _ _ hc h1 (by omega)), hcl_i, cyc_succ]
    simp only [Bool.false_eq_true, if_false]
    exact ih (i + 1) (by omega) (by omega) (fun j hj1 hj2 => hcl j (by omega) hj2) f (by omega)

theorem nextterm_loop_wraps (cfg : Config) (s : World) (hc : cterm cfg s < NTERMS cfg) :
    ∀ (d i : Nat), i + d = NTERMS cfg → 1 ≤ i →
      (∀ j, i ≤ j → j < NTERMS cfg → TERMOPEN s ((cterm cfg s + j) % NTERMS cfg) = false) →
      ∀ fuel, d + 1 ≤ fuel →
        nextterm_loop cfg s fuel ((cterm cfg s + i) % NTERMS cfg) = some s := by
  intro d
  induction d with
  | zero =>
    intro i hi _ _ fuel hf
    have hik : i = NTERMS cfg := by omega
    subst hik
    obtain ⟨f, rfl⟩ : ∃ f, fuel = f + 1 := ⟨fuel - 1, by omega⟩
    unfold nextterm_loop
    rw [Nat.add_mod_right, Nat.mod_eq_of_lt hc, if_pos rfl]
  | succ d ih =>
    intro i hi h1 hcl fuel hf
    obtain ⟨f, rfl⟩ : ∃ f, fuel = f + 1 := ⟨fuel - 1, by omega⟩
    unfold nextterm_loop
    have hcl_i := hcl i (le_refl i) (by omega)
    rw [if_neg (cyc_ne _ _ _ hc h1 (by omega)), hcl_i, cyc_succ]
    simp only [Bool.false_eq_true, if_false]
    exact ih (i + 1) (by omega) (by omega) (fun j hj1 hj2 => hcl j (by omega) hj2) f (by omega)

theorem cterm_lt (cfg : Config) (s : World) (hctag : s.ctag < NTAGS cfg)
    (htop : s.tops s.ctag ≤ 1) : cterm cfg s < NTERMS cfg := by
  unfold cterm NTERMS
  have : s.tops s.ctag * NTAGS cfg ≤ 1 * NTAGS cfg := Nat.mul_le_mul_right _ htop
  omega

/-- C13: with at least one tag, `ctag` a tag index and `tops[ctag]` 0 or 1, `nextterm`
returns. If every slot at the offsets 1 to `2 * NTAGS - 1` after the live one (modulo
`NTERMS`) is closed, it returns the state unchanged, having tested the loop condition
`NTERMS` times, so examined `NTERMS - 1` slots. If the slot at offset `k` is the
first open one, the loop ends within `k` tests of its condition, so examines `k`
slots, `k` at most `NTERMS - 1`; the result is `showterm` of that slot, which
outside one-shot mode is the live slot afterwards. -/
theorem C13_nextterm_first_open (cfg : Config) (s : World) (_hT : 1 ≤ NTAGS cfg)
    (hctag : s.ctag < NTAGS cfg) (htop : s.tops s.ctag ≤ 1) :
    (nextterm cfg s).isSome = true ∧
    ((∀ j, 1 ≤ j → j < NTERMS cfg → TERMOPEN s ((cterm cfg s + j) % NTERMS cfg) = false) →
      nextterm cfg s = some s) ∧
    (∀ k, 1 ≤ k → k < NTERMS cfg →
      (∀ j, 1 ≤ j → j < k → TERMOPEN s ((cterm cfg s + j) % NTERMS cfg) = false) →
      TERMOPEN s ((cterm cfg s + k) % NTERMS cfg) = true →
      nextterm_loop cfg s k ((cterm cfg s + 1) % NTERMS cfg)
        = some (showterm cfg s ((cterm cfg s + k) % NTERMS cfg)) ∧
      nextterm cfg s = some (showterm cfg s ((cterm cfg s + k) % NTERMS cfg)) ∧
      (s.cmdmode = false →
        cterm cfg (showterm cfg s ((cterm cfg s + k) % NTERMS cfg))
          = (cterm cfg s + k) % NTERMS cfg)) := by
  have hc := cterm_lt cfg s hctag htop
  refine ⟨nextterm_returns cfg s hc, fun hcl => ?_, fun k h1 hk hcl hopen => ⟨?_, ?_, ?_⟩⟩
  · unfold nextterm
    exact nextterm_loop_wraps cfg s hc (NTERMS cfg - 1) 1 (by omega) (le_refl 1) hcl _
      (by omega)
  · exact nextterm_loop_finds cfg s hc k hk hopen (k - 1) 1 (by omega) (le_refl 1) hcl k
      (by omega)
  · unfold nextterm
    exact nextterm_loop_finds cfg s hc k hk hopen (k - 1) 1 (by omega) (le_refl 1) hcl _
      (by omega)
  · intro hcmd
    apply cterm_after_show
    rw [hcmd]
    simp only [Bool.false_eq_true, or_false]
    exact fun e => cyc_ne _ _ _ hc h1 hk e.symm

/-- Witness of C13 on `cfg2`: with live slot 0 and slot 2 the only other open slot,
`nextterm` makes slot 2 live. -/
theorem C13_nextterm_first_open_witness :
    (nextterm cfg2 (world2 [0, 2] false 0 [])).map (fun w => cterm cfg2 w) = some 2 := by
  have h := ((C13_nextterm_first_open cfg2 (world2 [0, 2] false 0 []) (by decide)
    (by decide) (by decide)).2.2 2 (by decide) (by decide) (by decide) (by decide)).2.1
  rw [h]
  decide

theorem term_switch_plain_calls (cfg : Config) (s : World) (oidx nidx : Nat) (show_ : Bool) :
    calls_since s (term_switch cfg s oidx nidx show_ false false)
      = [Event.term_save oidx, Event.term_load nidx
          (if show_ then Flag.TERM_VISIBLE else Flag.TERM_HIDDEN)] := by
  unfold calls_since
  rw [term_switch_trace, List.drop_left]
  unfold switch_calls
  cases show_ <;> simp

theorem temp_switch_effect (cfg : Config) (s : World) (i : Nat) :
    (temp_switch cfg s i).ctag = s.ctag ∧ (temp_switch cfg s i).ltag = s.ltag ∧
    (temp_switch cfg s i).tops = s.tops ∧ (temp_switch cfg s i).histpos = s.histpos ∧
    (temp_switch cfg s i).termfd = s.termfd ∧ (temp_switch cfg s i).cmdmode = s.cmdmode ∧
    (temp_switch cfg s i).exitit = s.exitit ∧ (temp_switch cfg s i).hidden = s.hidden ∧
    (temp_switch cfg s i).active = (if i ≠ cterm cfg s then i else s.active) ∧
    calls_since s (temp_switch cfg s i)
      = (if i ≠ cterm cfg s then
          [Event.term_save (cterm cfg s), Event.term_load i Flag.TERM_HIDDEN] else []) := by
  by_cases h : i ≠ cterm cfg s
  · have e : temp_switch cfg s i = term_switch cfg s (cterm cfg s) i false false false := by
      unfold temp_switch
      rw [if_pos h]
    rw [e, if_pos h, if_pos h]
    obtain ⟨f1, f2, f3, f4, f5, -, f7, f8, -, -, -, -, f13, f14⟩ :=
      term_switch_frame cfg s (cterm cfg s) i false false false
    exact ⟨f1, f2, f3, f14, f4, f7, f8, f5, f13, term_switch_plain_calls cfg s _ _ false⟩
  · have e : temp_switch cfg s i = s := by
      unfold temp_switch
      rw [if_neg h]
    rw [e, if_neg h, if_neg h]
    exact ⟨rfl, rfl, rfl, rfl, rfl, rfl, rfl, rfl, rfl,
      by unfold calls_since; exact List.drop_length _⟩

theorem switch_back_effect (cfg : Config) (s : World) (i : Nat) :
    (switch_back cfg s i).ctag = s.ctag ∧ (switch_back cfg s i).ltag = s.ltag ∧
    (switch_back cfg s i).tops = s.tops ∧ (switch_back cfg s i).histpos = s.histpos ∧
    (switch_back cfg s i).termfd = s.termfd ∧ (switch_back cfg s i).cmdmode = s.cmdmode ∧
    (switch_back cfg s i).exitit = s.exitit ∧ (switch_back cfg s i).hidden = s.hidden ∧
    (switch_back cfg s i).active = (if i ≠ cterm cfg s then cterm cfg s else s.active) ∧
    calls_since s (switch_back cfg s i)
      = (if i ≠ cterm cfg s then
          [Event.term_save i, Event.term_load (cterm cfg s) Flag.TERM_VISIBLE] else []) := by
  by_cases h : i ≠ cterm cfg s
  · have e : switch_back cfg s i = term_switch cfg s i (cterm cfg s) true false false := by
      unfold switch_back
      rw [if_pos h]
    rw [e, if_pos h, if_pos h]
    obtain ⟨f1, f2, f3, f4, f5, -, f7, f8, -, -, -, -, f13, f14⟩ :=
      term_switch_frame cfg s i (cterm cfg s) true false false
    exact ⟨f1, f2, f3, f14, f4, f7, f8, f5, f13, term_switch_plain_calls cfg s _ _ true⟩
  · have e : switch_back cfg s i = s := by
      unfold switch_back
      rw [if_neg h]
    rw [e, if_neg h, if_neg h]
    exact ⟨rfl, rfl, rfl, rfl, rfl, rfl, rfl, rfl, rfl,
      by unfold calls_since; exact List.drop_length _⟩

theorem calls_since_trace (s s1 : World) (l : List Event) (h : s1.trace = s.trace ++ l) :
    calls_since s s1 = l := by
  unfold calls_since
  rw [h, List.drop_left]

/-- C14: for every slot index `i`, `temp_switch(i)` and `switch_back(i)` leave `ctag`,
`ltag`, `tops` and `histpos` as they were and make no `scr_snap` and no `scr_load`
call (off the live slot each makes one `term_save` and one `term_load`); on the
live slot both return the state unchanged; and off the live slot `switch_back(i)`,
also after `temp_switch(i)`, ends with `term_load` on the live slot `cterm()`, which
is then the slot the engine acts on. -/
theorem C14_temp_switch_and_back (cfg : Config) (s : World) (i : Nat) :
    ((temp_switch cfg s i).ctag = s.ctag ∧ (temp_switch cfg s i).ltag = s.ltag ∧
      (temp_switch cfg s i).tops = s.tops ∧ (temp_switch cfg s i).histpos = s.histpos ∧
      (calls_since s (temp_switch cfg s i)).all (fun e => !is_snapshot_call e) = true ∧
      calls_since s (temp_switch cfg s i)
        = (if i ≠ cterm cfg s then
            [Event.term_save (cterm cfg s), Event.term_load i Flag.TERM_HIDDEN] else [])) ∧
    ((switch_back cfg s i).ctag = s.ctag ∧ (switch_back cfg s i).ltag = s.ltag ∧
      (switch_back cfg s i).tops = s.tops ∧ (switch_back cfg s i).histpos = s.histpos ∧
      (calls_since s (switch_back cfg s i)).all (fun e => !is_snapshot_call e) = true ∧
      calls_since s (switch_back cfg s i)
        = (if i ≠ cterm cfg s then
            [Event.term_save i, Event.term_load (cterm cfg s) Flag.TERM_VISIBLE] else [])) ∧
    (i = cterm cfg s → temp_switch cfg s i = s ∧ switch_back cfg s i = s) ∧
    (i ≠ cterm cfg s →
      (switch_back cfg s i).active = cterm cfg s ∧
      (switch_back cfg (temp_switch cfg s i) i).active = cterm cfg s ∧
      cterm cfg (switch_back cfg (temp_switch cfg s i) i) = cterm cfg s ∧
      (switch_back cfg (temp_switch cfg s i) i).trace.getLast?
        = some (Event.term_load (cterm cfg s) Flag.TERM_VISIBLE) ∧
      calls_since s (switch_back cfg (temp_switch cfg s i) i)
        = [Event.term_save (cterm cfg s), Event.term_load i Flag.TERM_HIDDEN,
            Event.term_save i, Event.term_load (cterm cfg s) Flag.TERM_VISIBLE]) := by
  obtain ⟨t1, t2, t3, t4, -, -, -, -, t9, t10⟩ := temp_switch_effect cfg s i
  obtain ⟨b1, b2, b3, b4, -, -, -, -, b9, b10⟩ := switch_back_effect cfg s i
  refine ⟨⟨t1, t2, t3, t4, ?_, t10⟩, ⟨b1, b2, b3, b4, ?_, b10⟩, ?_, ?_⟩
  · rw [t10]
    split_ifs <;> rfl
  · rw [b10]
    split_ifs <;> rfl
  · intro h
    unfold temp_switch switch_back
    rw [if_neg (fun hh => hh h), if_neg (fun hh => hh h)]
    exact ⟨rfl, rfl⟩
  · intro h
    have hct : cterm cfg (temp_switch cfg s i) = cterm cfg s := cterm_congr cfg _ _ t3 t1
    have h2 : i ≠ cterm cfg (temp_switch cfg s i) := by rw [hct]; exact h
    obtain ⟨c1, -, c3, -, -, -, -, -, c9, c10⟩ := switch_back_effect cfg (temp_switch cfg s i) i
    rw [if_pos h] at b9 t10
    rw [if_pos h2, hct] at c9 c10
    have htr : (switch_back cfg (temp_switch cfg s i) i).trace
        = s.trace ++ [Event.term_save (cterm cfg s), Event.term_load i Flag.TERM_HIDDEN,
            Event.term_save i, Event.term_load (cterm cfg s) Flag.TERM_VISIBLE] := by
      have e1 : (temp_switch cfg s i).trace
          = s.trace ++ [Event.term_save (cterm cfg s), Event.term_load i Flag.TERM_HIDDEN] := by
        unfold temp_switch
        rw [if_pos h, term_switch_trace]
        unfold switch_calls
        simp
      have e2 : (switch_back cfg (temp_switch cfg s i) i).trace
          = (temp_switch cfg s i).trace
            ++ [Event.term_save i, Event.term_load (cterm cfg s) Flag.TERM_VISIBLE] := by
        conv_lhs => unfold switch_back
        rw [if_pos h2, term_switch_trace, hct]
        unfold switch_calls
        simp
      rw [e2, e1]
      simp
    refine ⟨b9, c9, (cterm_congr cfg _ _ c3 c1).trans hct, ?_, calls_since_trace _ _ _ htr⟩
    rw [htr]
    simp

/-- Witness of C14 on `cfg2`: off the live slot 0, `temp_switch 1` then
`switch_back 1` leaves the engine on slot 0. -/
theorem C14_temp_switch_and_back_witness :
    (switch_back cfg2 (temp_switch cfg2 (world2 [0, 1] false 0 []) 1) 1).active = 0 ∧
    temp_switch cfg2 (world2 [0, 1] false 0 []) 0 = world2 [0, 1] false 0 [] :=
  ⟨((C14_temp_switch_and_back cfg2 (world2 [0, 1] false 0 []) 1).2.2.2 (by decide)).2.1,
    ((C14_temp_switch_and_back cfg2 (world2 [0, 1] false 0 []) 0).2.2.1 (by decide)).1⟩

theorem land_lor (a b c : Nat) : a &&& (b ||| c) = (a &&& b) ||| (a &&& c) := by
  apply Nat.eq_of_testBit_eq
  intro i
  simp [Bool.and_or_distrib_left]

theorem lor_eq_zero (a b : Nat) : a ||| b = 0 ↔ a = 0 ∧ b = 0 := by
  constructor
  · intro h
    constructor
    · apply Nat.eq_of_testBit_eq
      intro i
      have := congrArg (fun x => Nat.testBit x i) h
      simp at this
      simp [this.1]
    · apply Nat.eq_of_testBit_eq
      intro i
      have := congrArg (fun x => Nat.testBit x i) h
      simp at this
      simp [this.2]
  · rintro ⟨rfl, rfl⟩
    rfl

theorem pollflags_bits :
    POLLFLAGS = POLLIN ||| POLLHUP ||| POLLERR ||| POLLNVAL ∧
    POLLFLAGS - POLLIN = POLLHUP ||| POLLERR ||| POLLNVAL := by
  decide

theorem stdin_terminal_iff (p : PollResult) :
    stdin_terminal p ↔ p.revents0 &&& (POLLFLAGS - POLLIN) ≠ 0 := by
  unfold stdin_terminal
  rw [pollflags_bits.2, land_lor, land_lor]
  constructor
  · intro h e
    rw [lor_eq_zero, lor_eq_zero] at e
    obtain ⟨⟨a, b⟩, c⟩ := e
    rcases h with h | h | h
    · exact h a
    · exact h b
    · exact h c
  · intro h
    by_cases a : p.revents0 &&& POLLHUP = 0
    · by_cases b : p.revents0 &&& POLLERR = 0
      · by_cases c : p.revents0 &&& POLLNVAL = 0
        · exact absurd ((lor_eq_zero _ _).mpr ⟨(lor_eq_zero _ _).mpr ⟨a, b⟩, c⟩) h
        · exact Or.inr (Or.inr c)
      · exact Or.inr (Or.inl b)
    · exact Or.inl a

theorem poll_all_stop (cfg : Config) (s : World) (p : PollResult) (h1 : 1 ≤ p.ret)
    (h2 : stdin_terminal p) : poll_all cfg s p = some (1, s) := by
  unfold poll_all
  simp only []
  rw [if_neg (by omega), if_pos ((stdin_terminal_iff p).mp h2)]

theorem poll_all_idle (cfg : Config) (s : World) (p : PollResult) (h1 : p.ret < 1) :
    poll_all cfg s p = some (0, s) := by
  unfold poll_all
  simp only []
  rw [if_pos h1]

theorem poll_all_run (cfg : Config) (s : World) (p : PollResult) (h1 : 1 ≤ p.ret)
    (h2 : ¬ stdin_terminal p) :
    poll_all cfg s p
      = (if p.revents0 &&& POLLIN ≠ 0 then directkey cfg s else some s).map
          (fun s1 => (0, ((List.range (NTERMS cfg)).filter (TERMOPEN s)).foldl
            (fun w i => poll_slot cfg w (p.revents i) i) s1)) := by
  unfold poll_all
  simp only []
  rw [if_neg (by omega), if_neg (fun h => h2 ((stdin_terminal_iff p).mpr h))]
  cases (if p.revents0 &&& POLLIN ≠ 0 then directkey cfg s else some s) <;> rfl

theorem temp_switch_trace (cfg : Config) (s : World) (i : Nat) :
    (temp_switch cfg s i).trace = s.trace ++ temp_calls (cterm cfg s) i := by
  unfold temp_switch temp_calls
  by_cases h : i ≠ cterm cfg s
  · rw [if_pos h, if_pos h, term_switch_trace]
    unfold switch_calls
    simp
  · rw [if_neg h, if_neg h, List.append_nil]

theorem switch_back_trace (cfg : Config) (s : World) (i : Nat) :
    (switch_back cfg s i).trace = s.trace ++ back_calls (cterm cfg s) i := by
  unfold switch_back back_calls
  by_cases h : i ≠ cterm cfg s
  · rw [if_pos h, if_pos h, term_switch_trace]
    unfold switch_calls
    simp
  · rw [if_neg h, if_neg h, List.append_nil]

theorem poll_slot_skip (cfg : Config) (s : World) (rev i : Nat)
    (h : rev &&& POLLFLAGS = 0) : poll_slot cfg s rev i = s := by
  unfold poll_slot
  rw [if_pos h]

theorem poll_slot_read (cfg : Config) (s : World) (rev i : Nat)
    (h : rev &&& POLLFLAGS ≠ 0) (hin : rev &&& POLLIN ≠ 0) :
    poll_slot cfg s rev i = switch_back cfg (term_read (temp_switch cfg s i)) i := by
  unfold poll_slot
  simp only []
  rw [if_neg h, if_pos hin]

theorem poll_slot_end (cfg : Config) (s : World) (rev i : Nat)
    (h : rev &&& POLLFLAGS ≠ 0) (hin : ¬ rev &&& POLLIN ≠ 0) :
    poll_slot cfg s rev i = switch_back cfg
      (if (term_end (scr_free (temp_switch cfg s i) i)).cmdmode
        then { term_end (scr_free (temp_switch cfg s i) i) with exitit := true }
        else term_end (scr_free (temp_switch cfg s i) i)) i := by
  unfold poll_slot
  simp only []
  rw [if_neg h, if_neg hin]

theorem poll_slot_read_effect (cfg : Config) (s : World) (rev i : Nat)
    (h : rev &&& POLLFLAGS ≠ 0) (hin : rev &&& POLLIN ≠ 0) :
    (poll_slot cfg s rev i).trace
      = s.trace ++ (temp_calls (cterm cfg s) i ++ [Event.term_read]
          ++ back_calls (cterm cfg s) i) ∧
    (poll_slot cfg s rev i).termfd = s.termfd ∧
    (poll_slot cfg s rev i).exitit = s.exitit ∧
    cterm cfg (poll_slot cfg s rev i) = cterm cfg s := by
  obtain ⟨t1, -, t3, -, t5, -, t7, -⟩ := temp_switch_effect cfg s i
  have hc1 : cterm cfg (term_read (temp_switch cfg s i)) = cterm cfg s :=
    cterm_congr cfg s _ t3 t1
  obtain ⟨b1, -, b3, -, b5, -, b7, -⟩ :=
    switch_back_effect cfg (term_read (temp_switch cfg s i)) i
  rw [poll_slot_read cfg s rev i h hin]
  refine ⟨?_, b5.trans t5, b7.trans t7, (cterm_congr cfg _ _ b3 b1).trans hc1⟩
  rw [switch_back_trace, hc1]
  show ((temp_switch cfg s i).trace ++ [Event.term_read]) ++ _ = _
  rw [temp_switch_trace]
  simp only [List.append_assoc]

theorem poll_slot_end_effect (cfg : Config) (s : World) (rev i : Nat)
    (h : rev &&& POLLFLAGS ≠ 0) (hin : ¬ rev &&& POLLIN ≠ 0) :
    (poll_slot cfg s rev i).trace
      = s.trace ++ (temp_calls (cterm cfg s) i ++ [Event.scr_free i, Event.term_end]
          ++ back_calls (cterm cfg s) i) ∧
    (poll_slot cfg s rev i).termfd
      = store s.termfd (if i ≠ cterm cfg s then i else s.active) 0 ∧
    (poll_slot cfg s rev i).exitit = (s.exitit || s.cmdmode) ∧
    cterm cfg (poll_slot cfg s rev i) = cterm cfg s := by
  obtain ⟨t1, -, t3, -, t5, t6, t7, -, t9, -⟩ := temp_switch_effect cfg s i
  rw [poll_slot_end cfg s rev i h hin]
  have hcm : (term_end (scr_free (temp_switch cfg s i) i)).cmdmode = s.cmdmode := t6
  rw [hcm]
  cases hc : s.cmdmode
  · simp only [Bool.false_eq_true, if_false, Bool.or_false]
    have hc1 : cterm cfg (term_end (scr_free (temp_switch cfg s i) i)) = cterm cfg s :=
      cterm_congr cfg s _ t3 t1
    obtain ⟨b1, -, b3, -, b5, -, b7, -⟩ :=
      switch_back_effect cfg (term_end (scr_free (temp_switch cfg s i) i)) i
    refine ⟨?_, ?_, b7.trans t7, (cterm_congr cfg _ _ b3 b1).trans hc1⟩
    · rw [switch_back_trace, hc1]
      show (((temp_switch cfg s i).trace ++ [Event.scr_free i]) ++ [Event.term_end]) ++ _ = _
      rw [temp_switch_trace]
      simp only [List.append_assoc, List.singleton_append]
    · rw [b5]
      show store (temp_switch cfg s i).termfd (temp_switch cfg s i).active 0 = _
      rw [t5, t9]
  · simp only [if_true, Bool.or_true]
    have hc1 : cterm cfg { term_end (scr_free (temp_switch cfg s i) i) with exitit := true }
        = cterm cfg s := cterm_congr cfg s _ t3 t1
    obtain ⟨b1, -, b3, -, b5, -, b7, -⟩ := switch_back_effect cfg
      { term_end (scr_free (temp_switch cfg s i) i) with exitit := true } i
    refine ⟨?_, ?_, b7, (cterm_congr cfg _ _ b3 b1).trans hc1⟩
    · rw [switch_back_trace, hc1]
      show (((temp_switch cfg s i).trace ++ [Event.scr_free i]) ++ [Event.term_end]) ++ _ = _
      rw [temp_switch_trace]
      simp only [List.append_assoc, List.singleton_append]
    · rw [b5]
      show store (temp_switch cfg s i).termfd (temp_switch cfg s i).active 0 = _
      rw [t5, t9]

theorem poll_fold_filter (cfg : Config) (rev : Nat → Nat) (l : List Nat) :
    ∀ s : World, l.foldl (fun w i => poll_slot cfg w (rev i) i) s
      = (l.filter (fun i => decide (rev i &&& POLLFLAGS ≠ 0))).foldl
          (fun w i => poll_slot cfg w (rev i) i) s := by
  induction l with
  | nil => intro s; rfl
  | cons i rest ih =>
    intro s
    by_cases h : rev i &&& POLLFLAGS ≠ 0
    · rw [List.filter_cons_of_pos (by simpa using h), List.foldl_cons, List.foldl_cons, ih]
    · rw [List.filter_cons_of_neg (by simpa using h), List.foldl_cons,
        poll_slot_skip cfg s _ i (by simpa using h), ih]

/-- C16: in a `poll_all` iteration where `poll` returned at least 1 and the
controlling input is not in a terminal condition, the result is 0 (continue) and the
state is reached from the one left by the input dispatch (run first, when the
controlling input is readable) by handling, once each and in ascending order, the
slots that were open when the wait-set was built and whose entry signalled. Handling
slot `i` from a state `w`: when readable the engine calls are those of
`temp_switch`, one `term_read` and those of `switch_back`, no slot is closed and
`exitit` is as before; otherwise they are those of `temp_switch`, `scr_free(i)`,
`term_end` and those of `switch_back`, slot `i` is closed (the engine acting on it),
and `exitit` is set exactly when it was set before or `cmdmode` is set. -/
theorem C16_poll_all_slots (cfg : Config) (s : World) (p : PollResult) (h1 : 1 ≤ p.ret)
    (h2 : ¬ stdin_terminal p) :
    poll_all cfg s p
      = (if p.revents0 &&& POLLIN ≠ 0 then directkey cfg s else some s).map
          (fun s1 => (0, (signalled cfg s p).foldl
            (fun w i => poll_slot cfg w (p.revents i) i) s1)) ∧
    (signalled cfg s p).Pairwise (fun a b => a < b) ∧
    (∀ i, i ∈ signalled cfg s p ↔
      i < NTERMS cfg ∧ TERMOPEN s i = true ∧ p.revents i &&& POLLFLAGS ≠ 0) ∧
    (∀ (w : World) (i : Nat), p.revents i &&& POLLFLAGS ≠ 0 → p.revents i &&& POLLIN ≠ 0 →
      calls_since w (poll_slot cfg w (p.revents i) i)
        = temp_calls (cterm cfg w) i ++ [Event.term_read] ++ back_calls (cterm cfg w) i ∧
      (poll_slot cfg w (p.revents i) i).termfd = w.termfd ∧
      (poll_slot cfg w (p.revents i) i).exitit = w.exitit) ∧
    (∀ (w : World) (i : Nat), p.revents i &&& POLLFLAGS ≠ 0 →
      ¬ p.revents i &&& POLLIN ≠ 0 →
      calls_since w (poll_slot cfg w (p.revents i) i)
        = temp_calls (cterm cfg w) i ++ [Event.scr_free i, Event.term_end]
            ++ back_calls (cterm cfg w) i ∧
      (poll_slot cfg w (p.revents i) i).exitit = (w.exitit || w.cmdmode) ∧
      ((i ≠ cterm cfg w ∨ w.active = i) →
        TERMOPEN (poll_slot cfg w (p.revents i) i) i = false)) := by
  refine ⟨?_, ?_, ?_, ?_, ?_⟩
  · rw [poll_all_run cfg s p h1 h2]
    congr 1
    funext s1
    unfold signalled
    rw [poll_fold_filter]
  · unfold signalled
    exact (List.pairwise_lt_range _).filter _ |>.filter _
  · intro i
    unfold signalled
    simp only [List.mem_filter, List.mem_range, decide_eq_true_eq]
    constructor
    · rintro ⟨⟨a, b⟩, c⟩
      exact ⟨a, b, c⟩
    · rintro ⟨a, b, c⟩
      exact ⟨⟨a, b⟩, c⟩
  · intro w i hf hin
    obtain ⟨e1, e2, e3, -⟩ := poll_slot_read_effect cfg w (p.revents i) i hf hin
    exact ⟨calls_since_trace _ _ _ e1, e2, e3⟩
  · intro w i hf hin
    obtain ⟨e1, e2, e3, -⟩ := poll_slot_end_effect cfg w (p.revents i) i hf hin
    refine ⟨calls_since_trace _ _ _ e1, e3, fun ha => ?_⟩
    unfold TERMOPEN
    rw [e2]
    have : (if i ≠ cterm cfg w then i else w.active) = i := by
      by_cases hi : i ≠ cterm cfg w
      · rw [if_pos hi]
      · rw [if_neg hi]
        rcases ha with ha | ha
        · exact absurd ha hi
        · exact ha
    rw [this]
    simp [store]

/-- Witness of C16 on `cfg2`: slots 0 (live) and 1 open, slot 0 readable and slot 1
hung up: slot 0 is read, then slot 1 is torn down between `temp_switch` and
`switch_back`, `exitit` stays clear and the result is 0. -/
theorem C16_poll_all_slots_witness :
    (poll_all cfg2 (world2 [0, 1] false 0 [])
        { ret := 2, revents0 := 0, revents := fun i => if i = 0 then POLLIN else POLLHUP }).map
        (fun r => (r.1, r.2.trace, TERMOPEN r.2 0, TERMOPEN r.2 1, r.2.exitit))
      = some (0, [Event.term_read, Event.term_save 0, Event.term_load 1 Flag.TERM_HIDDEN,
          Event.scr_free 1, Event.term_end, Event.term_save 1,
          Event.term_load 0 Flag.TERM_VISIBLE], true, false, false) := by
  rw [(C16_poll_all_slots cfg2 (world2 [0, 1] false 0 [])
    { ret := 2, revents0 := 0, revents := fun i => if i = 0 then POLLIN else POLLHUP }
    (by decide) (by unfold stdin_terminal; decide)).1]
  decide

theorem exec_cmd_trace (cfg : Config) (s : World) (args : List String) :
    (exec_cmd cfg s args).trace
      = s.trace ++ (if TERMOPEN s (cterm cfg s) = true then [] else [Event.term_exec args]) := by
  unfold exec_cmd mainterm term_exec emit
  by_cases h : TERMOPEN s (cterm cfg s) = true
  · simp [h]
  · simp only [h, Bool.false_eq_true, if_false, Option.isNone_none, if_true]
    cases s.execs <;> rfl

theorem directkey_esc_spawn (cfg : Config) (s : World) (c : Int)
    (hc : c = 99 ∨ c = 109 ∨ c = 101) :
    directkey_esc cfg s c = some (exec_cmd cfg s (spawn_program cfg c)) := by
  unfold directkey_esc spawn_program
  rcases hc with rfl | rfl | rfl
  · rw [if_pos rfl, if_pos rfl]
  · rw [if_neg (by decide), if_pos rfl, if_neg (by decide), if_pos rfl]
  · rw [if_neg (by decide), if_neg (by decide), if_pos rfl, if_neg (by decide),
      if_neg (by decide)]

/-- C17: for each spawn command (escape then `c`, `m` or `e`), `directkey` returns;
when the live slot is closed it makes exactly one engine call, `term_exec` with the
configured program, and when the live slot is open it makes no engine call; `ctag`,
`ltag`, `tops` and `histpos` are as before and no `term_send` is made. -/
theorem C17_spawn_into_closed_slot (cfg : Config) (s : World)
    (hmode : (cfg.PASS.isSome && s.locked) = false) (hesc : (readchar cfg s).1 = cfg.ESC)
    (hc : (readchar cfg (readchar cfg s).2).1 = 99 ∨ (readchar cfg (readchar cfg s).2).1 = 109 ∨
      (readchar cfg (readchar cfg s).2).1 = 101) :
    ∃ s1, directkey cfg s = some s1 ∧
      calls_since s s1 = (if TERMOPEN s (cterm cfg s) = true then []
        else [Event.term_exec (spawn_program cfg (readchar cfg (readchar cfg s).2).1)]) ∧
      s1.ctag = s.ctag ∧ s1.ltag = s.ltag ∧ s1.tops = s.tops ∧ s1.histpos = s.histpos := by
  obtain ⟨a1, a2, a3, a4, -, -, -, -, -, -, a11, -, a13, -⟩ := readchar_frame cfg s
  obtain ⟨b1, b2, b3, b4, -, -, -, -, -, -, b11, -, b13, -⟩ :=
    readchar_frame cfg (readchar cfg s).2
  obtain ⟨e1, e2, e3, -, -, -, -, -, -, e10, -⟩ := exec_cmd_frame cfg
    (readchar cfg (readchar cfg s).2).2 (spawn_program cfg (readchar cfg (readchar cfg s).2).1)
  refine ⟨_, (directkey_esc_step cfg s hmode hesc).trans (directkey_esc_spawn cfg _ _ hc),
    ?_, by rw [e2, b3, a3], by rw [e3, b4, a4], by rw [e1, b2, a2], by rw [e10, b11, a11]⟩
  apply calls_since_trace
  rw [exec_cmd_trace, b13, a13, readchar_cterm, readchar_cterm]
  have : TERMOPEN (readchar cfg (readchar cfg s).2).2 = TERMOPEN s := by
    unfold TERMOPEN
    rw [b1, a1]
  rw [this]

/-- Witness of C17 on `cfg2`: escape then `c` with every slot closed spawns the
shell once. -/
theorem C17_spawn_into_closed_slot_witness :
    ∃ s1, directkey cfg2 (world2 [] false 3 [some 27, some 99]) = some s1 ∧
      calls_since (world2 [] false 3 [some 27, some 99]) s1 = [Event.term_exec ["sh"]] ∧
      s1.histpos = 3 := by
  obtain ⟨s1, h1, h2, -, -, -, h6⟩ := C17_spawn_into_closed_slot cfg2
    (world2 [] false 3 [some 27, some 99]) rfl (by decide) (Or.inl (by decide))
  exact ⟨s1, h1, h2.trans (by decide), h6⟩

/-- C20: while a passcode is configured and `locked` is set, `directkey` on any read
(any byte, the escape byte included, or a failed read) returns, makes no engine call
and leaves `ctag`, `ltag`, `tops`, `histpos`, `exitit`, `hidden`, `cmdmode` and the
slots as they were: apart from the input consumed, only `locked`, `passlen` and
`pass` can differ. -/
theorem C20_locked_input_inert (cfg : Config) (s : World) (hP : cfg.PASS.isSome = true)
    (hl : s.locked = true) :
    ∃ s1, directkey cfg s = some s1 ∧ s1.trace = s.trace ∧ calls_since s s1 = [] ∧
      s1.ctag = s.ctag ∧ s1.ltag = s.ltag ∧ s1.tops = s.tops ∧ s1.histpos = s.histpos ∧
      s1.exitit = s.exitit ∧ s1.hidden = s.hidden ∧ s1.cmdmode = s.cmdmode ∧
      s1.termfd = s.termfd ∧ s1.active = s.active ∧ s1.loads = s.loads ∧
      s1.execs = s.execs ∧ s1.stdin = s.stdin.tail := by
  obtain ⟨a1, a2, a3, a4, a5, a6, -, -, -, a10, a11, a12, a13, a14, a15, a16⟩ :=
    readchar_frame cfg s
  obtain ⟨f1, f2, f3, f4, f5, f6, f7, f8, f9, f10, f11, f12, f13⟩ :=
    directkey_locked_frame cfg (readchar cfg s).2 (readchar cfg s).1
  refine ⟨_, directkey_locked_step cfg s hP hl, f13.trans a13, ?_, f2.trans a3, f3.trans a4,
    f1.trans a2, f7.trans a11, f4.trans a5, f5.trans a6, f6.trans a10, f11.trans a1,
    f8.trans a12, f10.trans a14, f12.trans a15, f9.trans a16⟩
  apply calls_since_trace
  rw [f13, a13, List.append_nil]

/-- Witness of C20 on `cfg2`: locked, the escape byte is taken as a passcode
candidate byte (not printable, so dropped) and nothing else happens. -/
theorem C20_locked_input_inert_witness :
    ∃ s1, directkey cfg2 (locked2 0 [some 27, some 17]) = some s1 ∧
      s1.trace = [] ∧ s1.exitit = false ∧ s1.stdin = [some 17] := by
  obtain ⟨s1, h1, h2, -, -, -, -, -, h8, -, -, -, -, -, -, h15⟩ :=
    C20_locked_input_inert cfg2 (locked2 0 [some 27, some 17]) rfl rfl
  exact ⟨s1, h1, h2, h8, h15⟩

theorem to_char_zero (cfg : Config) : to_char cfg 0 = 0 := by
  unfold to_char
  simp

/-- The call `strchr(str, c)` with a `char` value of `c` other than NUL finds only
characters of the string: the offset is below its length and the character there is
that `char` value. -/
theorem strchr_label (cfg : Config) (str : List Int) (c : Int) (k : Nat)
    (hc : to_char cfg c ≠ 0) (h : strchr cfg str c = some k) :
    k < str.length ∧ str.getD k 0 = to_char cfg c := by
  unfold strchr at h
  simp only [] at h
  by_cases hx : to_char cfg c ∈ str
  · rw [List.indexOf_append_of_mem hx] at h
    have hlt : List.indexOf (to_char cfg c) str < str.length := List.indexOf_lt_length.mpr hx
    rw [if_pos (Nat.le_of_lt hlt)] at h
    cases h
    refine ⟨hlt, ?_⟩
    rw [List.getD_eq_getElem?_getD, List.getElem?_eq_getElem hlt]
    exact List.indexOf_get hlt
  · rw [List.indexOf_append_of_not_mem hx, List.indexOf_cons_ne _ (Ne.symm hc)] at h
    rw [if_neg (by omega)] at h
    cases h

/-- The call `strchr(tags, c)` with the `char` value NUL finds the terminator: the
offset is the length of the string, one past its last character. -/
theorem strchr_nul (cfg : Config) (str : List Int) (c : Int) (hc : to_char cfg c = 0)
    (h0 : (0 : Int) ∉ str) : strchr cfg str c = some str.length := by
  unfold strchr
  simp only []
  rw [hc, List.indexOf_append_of_not_mem h0, List.indexOf_cons_self, Nat.add_zero,
    if_pos (le_refl _)]

/-- C19, the code at the failing input: on `cfg2` (two tags) the byte NUL after the
escape byte is no tag label, `strchr(tags, 0)` finds the terminator at offset 2, and
the default branch calls `showtag(2)` with 2 not below `NTAGS`: it reads `tops[2]`
past the array and, that word being 1, activates slot 4 of the 4 slots 0 to 3. -/
theorem C19_nul_selects_tag_past_end :
    NTAGS cfg2 = 2 ∧ (0 : Int) ∉ cfg2.tags ∧ (0 : Int) ∉ command_bytes ∧
    strchr cfg2 cfg2.tags 0 = some 2 ∧
    directkey_esc cfg2 (world_past 1 []) 0 = some (showtag cfg2 (world_past 1 []) 2) ∧
    (directkey cfg2 (world_past 1 [some 27, some 0])).map (fun w => w.trace)
      = some [Event.scr_snap 0, Event.term_save 0, Event.term_load 4 Flag.TERM_REDRAW] := by
  refine ⟨by decide, by decide, by decide, by decide, rfl, by decide⟩

/-- C18, the code at the failing input: on `cfg2` the state `world_past 1` satisfies
the display-cursor predicate; after `directkey` reads the escape byte and then NUL,
`tops[0]` is 2 and the live index `cterm()` is 4, not below `NTERMS = 4`, so the
predicate no longer holds. -/
theorem C18_nul_breaks_cursor :
    cursor_ok cfg2 (world_past 1 [some 27, some 0]) ∧
    NTERMS cfg2 = 4 ∧
    (directkey cfg2 (world_past 1 [some 27, some 0])).map
      (fun w => (w.ctag, w.tops 0, cterm cfg2 w)) = some (0, 2, 4) ∧
    ∀ s1, directkey cfg2 (world_past 1 [some 27, some 0]) = some s1 → ¬ cursor_ok cfg2 s1 := by
  refine ⟨⟨by decide, by decide, fun t ht => ?_⟩, by decide, by decide, fun s1 h hok => ?_⟩
  · show (if t = 2 then 1 else 0) ≤ 1
    split_ifs <;> omega
  · have e : (directkey cfg2 (world_past 1 [some 27, some 0])).map (fun w => w.tops 0)
        = some 2 := by decide
    rw [h] at e
    have h2 : s1.tops 0 = 2 := Option.some.inj e
    have := hok.2.2 0 (by decide)
    omega

theorem cursor_ok_of_eq (cfg : Config) {s s1 : World} (h1 : s1.tops = s.tops)
    (h2 : s1.ctag = s.ctag) (h3 : s1.ltag = s.ltag) (hs : cursor_ok cfg s) :
    cursor_ok cfg s1 := by
  unfold cursor_ok at hs ⊢
  rw [h1, h2, h3]
  exact hs

theorem cursor_ok_cterm (cfg : Config) (s : World) (hs : cursor_ok cfg s) :
    cterm cfg s < NTERMS cfg :=
  cterm_lt cfg s hs.1 (hs.2.2 _ hs.1)

theorem showterm_cursor_ok (cfg : Config) (s : World) (n : Nat) (hT : 1 ≤ NTAGS cfg)
    (hn : n < NTERMS cfg) (hs : cursor_ok cfg s) : cursor_ok cfg (showterm cfg s n) := by
  by_cases hg : cterm cfg s = n ∨ s.cmdmode = true
  · rw [showterm_guard cfg s n hg]
    exact hs
  · obtain ⟨-, -, -, -, h5, h6, h7, -⟩ := showterm_fields cfg s n hg
    unfold cursor_ok
    rw [h5, h6, h7]
    refine ⟨Nat.mod_lt _ (by omega), ?_, fun t ht => ?_⟩
    · split_ifs
      · exact hs.1
      · exact hs.2.1
    · unfold store
      split_ifs
      · have : n / NTAGS cfg < 2 := by
          apply Nat.div_lt_of_lt_mul
          unfold NTERMS at hn
          omega
        omega
      · exact hs.2.2 t ht

theorem showtag_cursor_ok (cfg : Config) (s : World) (k : Nat) (hT : 1 ≤ NTAGS cfg)
    (hk : k < NTAGS cfg) (hs : cursor_ok cfg s) : cursor_ok cfg (showtag cfg s k) := by
  unfold showtag
  apply showterm_cursor_ok cfg s _ hT _ hs
  have h1 := hs.2.2 k hk
  have : s.tops k * NTAGS cfg ≤ 1 * NTAGS cfg := Nat.mul_le_mul_right _ h1
  unfold NTERMS
  omega

theorem altterm_lt (cfg : Config) (n : Nat) (hn : n < NTERMS cfg) :
    altterm cfg n < NTERMS cfg := by
  unfold altterm
  unfold NTERMS at hn ⊢
  split_ifs <;> omega

theorem nextterm_loop_cursor_ok (cfg : Config) (s : World) (hT : 1 ≤ NTAGS cfg)
    (hs : cursor_ok cfg s) :
    ∀ (fuel n : Nat) (s1 : World), n < NTERMS cfg → nextterm_loop cfg s fuel n = some s1 →
      cursor_ok cfg s1 := by
  intro fuel
  induction fuel with
  | zero =>
    intro n s1 _ h
    simp [nextterm_loop] at h
  | succ k ih =>
    intro n s1 hn h
    unfold nextterm_loop at h
    split_ifs at h
    · cases h
      exact hs
    · cases h
      exact showterm_cursor_ok cfg s n hT hn hs
    · exact ih _ s1 (Nat.mod_lt _ (by unfold NTERMS; omega)) h

theorem nextterm_cursor_ok (cfg : Config) (s s1 : World) (hT : 1 ≤ NTAGS cfg)
    (hs : cursor_ok cfg s) (h : nextterm cfg s = some s1) : cursor_ok cfg s1 :=
  nextterm_loop_cursor_ok cfg s hT hs _ _ s1 (Nat.mod_lt _ (by unfold NTERMS; omega)) h

theorem directkey_esc_cursor_ok (cfg : Config) (s : World) (c : Int) (hT : 1 ≤ NTAGS cfg)
    (hnul : to_char cfg c ≠ 0) (hs : cursor_ok cfg s) :
    ∀ s1, directkey_esc cfg s c = some s1 → cursor_ok cfg s1 := by
  apply directkey_esc_elim cfg s c (fun r => ∀ s1, r = some s1 → cursor_ok cfg s1)
  · intro args s1 h
    cases h
    obtain ⟨h1, h2, h3, -⟩ := exec_cmd_frame cfg s args
    exact cursor_ok_of_eq cfg h1 h2 h3 hs
  · intro s1 h
    cases h
    exact showterm_cursor_ok cfg s _ hT (altterm_lt cfg _ (cursor_ok_cterm cfg s hs)) hs
  · intro s1 h
    cases h
    exact showtag_cursor_ok cfg s _ hT hs.2.1 hs
  · intro s1 h
    cases h
    obtain ⟨l, hl⟩ := showtags_trace cfg s
    rw [hl]
    exact hs
  · intro s1 h
    exact nextterm_cursor_ok cfg s s1 hT hs h
  · intro s1 h
    cases h
    exact hs
  · intro s1 h
    cases h
    exact hs
  · intro s1 h
    cases h
    obtain ⟨h1, h2, h3, -⟩ :=
      term_switch_frame cfg s (cterm cfg s) (cterm cfg s) true false true
    exact cursor_ok_of_eq cfg h3 h1 h2 hs
  · intro s1 h
    cases h
    exact hs
  · intro s1 h
    cases h
    exact hs
  · intro s1 h
    cases h
    exact hs
  · intro k hk s1 h
    cases h
    exact showtag_cursor_ok cfg s k hT (strchr_label cfg cfg.tags c k hnul hk).1 hs
  · intro _ s1 h
    cases h
    obtain ⟨-, h2, h3, h4, -⟩ := esc_other_effect cfg s c
    exact cursor_ok_of_eq cfg h4 h2 h3 hs

/-- The display-cursor predicate is kept by `directkey` on every input in which the
byte read after the escape byte is not NUL. -/
theorem directkey_cursor_ok (cfg : Config) (s : World) (hT : 1 ≤ NTAGS cfg)
    (hnul : (cfg.PASS.isSome && s.locked) = false → (readchar cfg s).1 = cfg.ESC →
      to_char cfg (readchar cfg (readchar cfg s).2).1 ≠ 0)
    (hs : cursor_ok cfg s) : ∀ s1, directkey cfg s = some s1 → cursor_ok cfg s1 := by
  obtain ⟨-, a2, a3, a4, -⟩ := readchar_frame cfg s
  obtain ⟨-, b2, b3, b4, -⟩ := readchar_frame cfg (readchar cfg s).2
  have hw1 : cursor_ok cfg (readchar cfg s).2 := cursor_ok_of_eq cfg a2 a3 a4 hs
  apply directkey_elim cfg s (fun r => ∀ s1, r = some s1 → cursor_ok cfg s1)
  · intro _ _ s1 h
    cases h
    obtain ⟨f1, f2, f3, -⟩ := directkey_locked_frame cfg (readchar cfg s).2 (readchar cfg s).1
    exact cursor_ok_of_eq cfg f1 f2 f3 hw1
  · intro hm he s1 h
    exact directkey_esc_cursor_ok cfg _ _ hT (hnul hm he)
      (cursor_ok_of_eq cfg b2 b3 b4 hw1) s1 h
  · intro _ _ s1 h
    cases h
    obtain ⟨f1, f2, f3, -⟩ := directkey_send_frame cfg (readchar cfg s).2 (readchar cfg s).1
    exact cursor_ok_of_eq cfg f1 f2 f3 hw1

theorem poll_slot_cursor_ok (cfg : Config) (s : World) (rev i : Nat)
    (hs : cursor_ok cfg s) : cursor_ok cfg (poll_slot cfg s rev i) := by
  obtain ⟨t1, t2, t3, -⟩ := temp_switch_effect cfg s i
  by_cases h : rev &&& POLLFLAGS = 0
  · rw [poll_slot_skip cfg s rev i h]
    exact hs
  · by_cases hin : rev &&& POLLIN ≠ 0
    · rw [poll_slot_read cfg s rev i h hin]
      obtain ⟨b1, b2, b3, -⟩ := switch_back_effect cfg (term_read (temp_switch cfg s i)) i
      exact cursor_ok_of_eq cfg (b3.trans t3) (b1.trans t1) (b2.trans t2) hs
    · rw [poll_slot_end cfg s rev i h hin]
      split_ifs
      · obtain ⟨b1, b2, b3, -⟩ := switch_back_effect cfg
          { term_end (scr_free (temp_switch cfg s i) i) with exitit := true } i
        exact cursor_ok_of_eq cfg (b3.trans t3) (b1.trans t1) (b2.trans t2) hs
      · obtain ⟨b1, b2, b3, -⟩ := switch_back_effect cfg
          (term_end (scr_free (temp_switch cfg s i) i)) i
        exact cursor_ok_of_eq cfg (b3.trans t3) (b1.trans t1) (b2.trans t2) hs

theorem poll_fold_cursor_ok (cfg : Config) (rev : Nat → Nat) (l : List Nat) :
    ∀ s : World, cursor_ok cfg s →
      cursor_ok cfg (l.foldl (fun w i => poll_slot cfg w (rev i) i) s) := by
  induction l with
  | nil => intro s hs; exact hs
  | cons i rest ih =>
    intro s hs
    rw [List.foldl_cons]
    exact ih _ (poll_slot_cursor_ok cfg s _ i hs)

/-- The display-cursor predicate holds initially and is kept by `nextterm`, by
`poll_all` and by the signal handlers, as long as no `directkey` run reads NUL after
the escape byte; the live index is then a slot index. -/
theorem cursor_ok_kept (cfg : Config) (hT : 1 ≤ NTAGS cfg) :
    (∀ i l e, cursor_ok cfg (init i l e)) ∧
    (∀ s, cursor_ok cfg s →
      cterm cfg s < NTERMS cfg ∧
      (∀ s1, nextterm cfg s = some s1 → cursor_ok cfg s1) ∧
      (∀ n, cursor_ok cfg (signalreceived cfg s n)) ∧
      (∀ p r s1,
        ((cfg.PASS.isSome && s.locked) = false → (readchar cfg s).1 = cfg.ESC →
          to_char cfg (readchar cfg (readchar cfg s).2).1 ≠ 0) →
        poll_all cfg s p = some (r, s1) → cursor_ok cfg s1)) := by
  refine ⟨fun i l e => ⟨hT, hT, fun _ _ => Nat.zero_le 1⟩, fun s hs =>
    ⟨cursor_ok_cterm cfg s hs, fun s1 => nextterm_cursor_ok cfg s s1 hT hs, fun n => ?_,
      fun p r s1 hnul h => ?_⟩⟩
  · unfold signalreceived
    split_ifs
    · exact hs
    · cases n
      · obtain ⟨h1, h2, h3, -⟩ := term_switch_frame cfg { s with hidden := true }
          (cterm cfg { s with hidden := true }) (cterm cfg { s with hidden := true })
          false true false
        exact cursor_ok_of_eq cfg h3 h1 h2 hs
      · obtain ⟨h1, h2, h3, -⟩ := term_switch_frame cfg
          (emit { s with hidden := false } Event.fb_cmap)
          (cterm cfg (emit { s with hidden := false } Event.fb_cmap))
          (cterm cfg (emit { s with hidden := false } Event.fb_cmap)) true false true
        exact cursor_ok_of_eq cfg h3 h1 h2 hs
      · exact hs
  · by_cases h1 : 1 ≤ p.ret
    · by_cases h2 : stdin_terminal p
      · rw [poll_all_stop cfg s p h1 h2] at h
        cases h
        exact hs
      · rw [poll_all_run cfg s p h1 h2] at h
        by_cases h3 : p.revents0 &&& POLLIN ≠ 0
        · rw [if_pos h3] at h
          cases hd : directkey cfg s with
          | none => rw [hd] at h; cases h
          | some w =>
            rw [hd] at h
            cases h
            exact poll_fold_cursor_ok cfg _ _ w (directkey_cursor_ok cfg s hT hnul hs w hd)
        · rw [if_neg h3] at h
          cases h
          exact poll_fold_cursor_ok cfg _ _ s hs
    · rw [poll_all_idle cfg s p (by omega)] at h
      cases h
      exact hs

theorem esc_nul_false (cfg : Config) (s : World) (h : esc_nul cfg s = false) :
    (cfg.PASS.isSome && s.locked) = false → (readchar cfg s).1 = cfg.ESC →
      to_char cfg (readchar cfg (readchar cfg s).2).1 ≠ 0 := by
  intro h1 h2 h3
  unfold esc_nul at h
  simp [h1, h2, h3] at h

/-- From a state that satisfies the display-cursor predicate, a run of `directkey`
that does not read NUL after the escape byte returns, and the predicate holds
again. -/
theorem directkey_returns (cfg : Config) (s : World) (hT : 1 ≤ NTAGS cfg)
    (hs : cursor_ok cfg s) (hn : esc_nul cfg s = false) :
    ∃ s1, directkey cfg s = some s1 ∧ cursor_ok cfg s1 := by
  have hsome : (directkey cfg s).isSome = true := by
    apply directkey_elim cfg s (fun r => r.isSome = true)
    · intro _ _; rfl
    · intro _ _
      apply directkey_esc_elim cfg _ _ (fun r => r.isSome = true)
      all_goals try (intros; rfl)
      apply nextterm_returns
      rw [readchar_cterm, readchar_cterm]
      exact cursor_ok_cterm cfg s hs
    · intro _ _; rfl
  obtain ⟨s1, h1⟩ := Option.isSome_iff_exists.mp hsome
  exact ⟨s1, h1, directkey_cursor_ok cfg s hT (esc_nul_false cfg s hn) hs s1 h1⟩

theorem directkeys_clean (cfg : Config) (hT : 1 ≤ NTAGS cfg) :
    ∀ (k : Nat) (s : World), cursor_ok cfg s → clean_run cfg k s = true →
      ∃ s1, directkeys cfg k s = some s1 ∧ cursor_ok cfg s1 := by
  intro k
  induction k with
  | zero =>
    intro s hs _
    exact ⟨s, rfl, hs⟩
  | succ k ih =>
    intro s hs hc
    unfold clean_run at hc
    simp only [Bool.and_eq_true, Bool.not_eq_true'] at hc
    obtain ⟨w, hw, hcw⟩ := directkey_returns cfg s hT hs hc.1
    have hc2 := hc.2
    rw [hw] at hc2
    obtain ⟨s1, h1, h2⟩ := ih w hcw hc2
    refine ⟨s1, ?_, h2⟩
    unfold directkeys
    rw [hw, Option.some_bind]
    exact h1

theorem poll_all_returns (cfg : Config) (s : World) (p : PollResult) (hT : 1 ≤ NTAGS cfg)
    (hs : cursor_ok cfg s) (hn : esc_nul cfg s = false) :
    ∃ r s1, poll_all cfg s p = some (r, s1) ∧ cursor_ok cfg s1 := by
  have hk := ((cursor_ok_kept cfg hT).2 s hs).2.2.2 p
  have hex : ∃ r s1, poll_all cfg s p = some (r, s1) := by
    by_cases h1 : 1 ≤ p.ret
    · by_cases h2 : stdin_terminal p
      · exact ⟨1, s, poll_all_stop cfg s p h1 h2⟩
      · rw [poll_all_run cfg s p h1 h2]
        by_cases h3 : p.revents0 &&& POLLIN ≠ 0
        · obtain ⟨w, hw, -⟩ := directkey_returns cfg s hT hs hn
          rw [if_pos h3, hw]
          exact ⟨_, _, rfl⟩
        · rw [if_neg h3]
          exact ⟨_, _, rfl⟩
    · exact ⟨0, s, poll_all_idle cfg s p (by omega)⟩
  obtain ⟨r, s1, h⟩ := hex
  exact ⟨r, s1, h, hk r s1 (esc_nul_false cfg s hn) h⟩

theorem mainloop_eq (cfg : Config) (s : World) (args : Option (List String))
    (polls : List PollResult) :
    mainloop cfg s args polls = mainloop_loop cfg polls (mainloop_setup cfg s args) := by
  unfold mainloop mainloop_setup
  cases args <;> rfl

theorem cursor_ok_world2 (fds : List Nat) (hidden : Bool) (histpos : Int)
    (stdin : List (Option Nat)) : cursor_ok cfg2 (world2 fds hidden histpos stdin) :=
  ⟨show 0 < 2 by decide, show 0 < 2 by decide, fun _ _ => Nat.zero_le 1⟩

theorem cursor_ok_locked2 (passlen : Nat) (stdin : List (Option Nat)) :
    cursor_ok cfg2 (locked2 passlen stdin) :=
  ⟨show 0 < 2 by decide, show 0 < 2 by decide, fun _ _ => Nat.zero_le 1⟩

/-- C5, as amended: with `NHIST >= 0`, `pad_rows() >= 0` and `NHIST + pad_rows() / 2`
at most `INT_MAX`, the bound `0 <= histpos <= NHIST` holds in the initial state and,
from every state that satisfies the display-cursor predicate, is kept by every
operation of the program on arguments within their ranges: by `directkey` on every
input other than NUL after the escape byte (it returns), hence by any number of such
runs, by the advance command `,` and the retreat command `.`, which move by
`pad_rows() / 2` and clamp, by `term_switch`, `showterm`, `showtag`, `nextterm`,
`exec_cmd`, `showtags`, `temp_switch`, `switch_back`, `poll_all`, `signalreceived` and
`mainloop`. -/
theorem C5_histpos_invariant (cfg : Config) (hT : 1 ≤ NTAGS cfg) (hN : 0 ≤ cfg.NHIST)
    (hR : 0 ≤ cfg.pad_rows) (hfit : cfg.NHIST + Int.tdiv cfg.pad_rows 2 < 2147483648) :
    (∀ i l e, hist_ok cfg (init i l e) ∧ cursor_ok cfg (init i l e)) ∧
    (∀ s, cursor_ok cfg s → hist_ok cfg s →
      (esc_nul cfg s = false →
        ∃ s1, directkey cfg s = some s1 ∧ hist_ok cfg s1 ∧ cursor_ok cfg s1) ∧
      (∀ k, clean_run cfg k s = true →
        ∃ s1, directkeys cfg k s = some s1 ∧ hist_ok cfg s1 ∧ cursor_ok cfg s1) ∧
      (directkey_esc cfg s 44).map (fun w => w.histpos)
        = some (min cfg.NHIST (s.histpos + Int.tdiv cfg.pad_rows 2)) ∧
      (directkey_esc cfg s 46).map (fun w => w.histpos)
        = some (max 0 (s.histpos - Int.tdiv cfg.pad_rows 2)) ∧
      (∀ oidx nidx show_ save load, oidx < NTERMS cfg → nidx < NTERMS cfg →
        hist_ok cfg (term_switch cfg s oidx nidx show_ save load)) ∧
      (∀ n, n < NTERMS cfg → hist_ok cfg (showterm cfg s n)) ∧
      (∀ n, n < NTAGS cfg → hist_ok cfg (showtag cfg s n)) ∧
      (∃ s1, nextterm cfg s = some s1 ∧ hist_ok cfg s1) ∧
      (∀ args, hist_ok cfg (exec_cmd cfg s args)) ∧
      hist_ok cfg (showtags cfg s) ∧
      (∀ i, i < NTERMS cfg → hist_ok cfg (temp_switch cfg s i)) ∧
      (∀ i, i < NTERMS cfg → hist_ok cfg (switch_back cfg s i)) ∧
      (∀ p, esc_nul cfg s = false →
        ∃ r s1, poll_all cfg s p = some (r, s1) ∧ hist_ok cfg s1 ∧ cursor_ok cfg s1) ∧
      (∀ n, hist_ok cfg (signalreceived cfg s n)) ∧
      (∀ args, hist_ok cfg (mainloop_setup cfg s args)) ∧
      (∀ args polls s1, clean_loop cfg polls (mainloop_setup cfg s args) = true →
        mainloop cfg s args polls = some s1 → hist_ok cfg s1)) := by
  have hdiv : 0 ≤ Int.tdiv cfg.pad_rows 2 := Int.tdiv_nonneg hR (by decide)
  refine ⟨fun i l e => ⟨⟨le_refl 0, hN⟩, hT, hT, fun _ _ => Nat.zero_le 1⟩, fun s hc hs => ?_⟩
  refine ⟨fun hn => ?_, fun k hk => ?_, ?_, ?_,
    fun o n a b c _ _ => term_switch_hist_ok cfg hN s o n a b c hs,
    fun n _ => showterm_hist_ok cfg hN s n hs, fun n _ => showterm_hist_ok cfg hN s _ hs,
    ?_, fun args => hist_ok_of_eq cfg (exec_cmd_frame cfg s args).2.2.2.2.2.2.2.2.2.1 hs,
    hist_ok_trace_ext cfg (showtags_trace cfg s) hs,
    fun i _ => temp_switch_hist_ok cfg hN s i hs, fun i _ => switch_back_hist_ok cfg hN s i hs,
    fun p hn => ?_, fun n => signalreceived_hist_ok cfg hN s n hs, fun args => ?_,
    fun args polls s1 _ h => mainloop_hist_ok cfg hN hR hfit s args polls hs s1 h⟩
  · obtain ⟨s1, h1, h2⟩ := directkey_returns cfg s hT hc hn
    exact ⟨s1, h1, directkey_hist_ok cfg hN hR hfit s hs s1 h1, h2⟩
  · obtain ⟨s1, h1, h2⟩ := directkeys_clean cfg hT k s hc hk
    exact ⟨s1, h1, directkeys_hist_ok cfg hN hR hfit k s s1 hs h1, h2⟩
  · have e : (directkey_esc cfg s 44).map (fun w => w.histpos)
        = some (min cfg.NHIST (wrap_int (s.histpos + Int.tdiv cfg.pad_rows 2))) := rfl
    rw [e, wrap_int_of_range _ (by have := hs.1; omega) (by have := hs.2; omega)]
  · have e : (directkey_esc cfg s 46).map (fun w => w.histpos)
        = some (max 0 (wrap_int (s.histpos - Int.tdiv cfg.pad_rows 2))) := rfl
    rw [e, wrap_int_of_range _ (by have := hs.1; omega) (by have := hs.2; omega)]
  · obtain ⟨s1, h1⟩ := Option.isSome_iff_exists.mp
      (nextterm_returns cfg s (cursor_ok_cterm cfg s hc))
    exact ⟨s1, h1, nextterm_hist_ok cfg hN s s1 hs h1⟩
  · obtain ⟨r, s1, h1, h2⟩ := poll_all_returns cfg s p hT hc hn
    exact ⟨r, s1, h1, poll_all_hist_ok cfg hN hR hfit s p hs r s1 h1, h2⟩
  · unfold mainloop_setup
    cases args with
    | none => exact hs
    | some a => exact hist_ok_of_eq cfg (exec_cmd_frame cfg _ a).2.2.2.2.2.2.2.2.2.1 hs

/-- Witness of C5 on `cfg2` (`NHIST` 100, 40 rows): with `histpos` 90 the advance
command returns a state within the bound. -/
theorem C5_histpos_invariant_witness :
    ∃ s1, directkey cfg2 (world2 [0] false 90 [some 27, some 44]) = some s1 ∧
      hist_ok cfg2 s1 ∧ cursor_ok cfg2 s1 :=
  ((C5_histpos_invariant cfg2 (by decide) (by decide) (by decide) (by decide)).2
    (world2 [0] false 90 [some 27, some 44]) (cursor_ok_world2 _ _ _ _)
    ⟨by decide, by decide⟩).1 (by decide)

/-- C5, refuted as stated: on `cfg_big`, where `NHIST >= 0` and `pad_rows() >= 0`,
the initial state satisfies `0 <= histpos <= NHIST`, and after three advance
commands (escape then `,`) the 32-bit sum has wrapped and `histpos` is -1073741830;
from `histpos = NHIST = 2147483647` one advance command leaves -1073741827. -/
theorem C5_int_overflow_breaks_bound :
    0 ≤ cfg_big.NHIST ∧ 0 ≤ cfg_big.pad_rows ∧
    (0 ≤ (init [some 27, some 44, some 27, some 44, some 27, some 44] [] []).histpos ∧
      (init [some 27, some 44, some 27, some 44, some 27, some 44] [] []).histpos
        ≤ cfg_big.NHIST) ∧
    (directkeys cfg_big 3
        (init [some 27, some 44, some 27, some 44, some 27, some 44] [] [])).map
      (fun w => w.histpos) = some (-1073741830) ∧
    (directkey cfg_big (world2 [0] false 2147483647 [some 27, some 44])).map
      (fun w => w.histpos) = some (-1073741827) := by
  decide

/-- C7: the passcode length is 0 initially and, from any state that satisfies the
display-cursor predicate and holds a length of at most `sizeof(pass) - 1 = 1023`,
any number of runs of `directkey`, whatever the mode and the bytes read other than
NUL after the escape byte, return, and after them the length is at most 1023, no
cell beyond the 1024 cells of `pass` has been written, and the predicate holds
again. -/
theorem C7_passlen_bounded (cfg : Config) (hT : 1 ≤ NTAGS cfg) :
    PASS_SIZE - 1 = 1023 ∧
    (∀ i l e, (init i l e).passlen = 0 ∧ cursor_ok cfg (init i l e)) ∧
    (∀ s : World, cursor_ok cfg s → s.passlen ≤ PASS_SIZE - 1 →
      ∀ k, clean_run cfg k s = true →
        ∃ s1, directkeys cfg k s = some s1 ∧ s1.passlen ≤ PASS_SIZE - 1 ∧
          (∀ j, PASS_SIZE ≤ j → s1.pass j = s.pass j) ∧ cursor_ok cfg s1) := by
  refine ⟨rfl, fun _ _ _ => ⟨rfl, hT, hT, fun _ _ => Nat.zero_le 1⟩, fun s hc hs k hk => ?_⟩
  obtain ⟨s1, h1, h2⟩ := directkeys_clean cfg hT k s hc hk
  have h3 := directkeys_pass_kept cfg k s s1 hs h1
  exact ⟨s1, h1, h3.1, h3.2, h2⟩

/-- Witness of C7 on `cfg2`: locked with 1022 characters held, three more printable
bytes leave the length at 1023. -/
theorem C7_passlen_bounded_witness :
    ∃ s1, directkeys cfg2 3 (locked2 1022 [some 97, some 98, some 99]) = some s1 ∧
      s1.passlen = 1023 ∧ s1.passlen ≤ PASS_SIZE - 1 := by
  obtain ⟨s1, h1, h2, -, -⟩ := (C7_passlen_bounded cfg2 (by decide)).2.2
    (locked2 1022 [some 97, some 98, some 99]) (cursor_ok_locked2 _ _) (by decide) 3
    (by decide)
  refine ⟨s1, h1, ?_, h2⟩
  have e : (directkeys cfg2 3 (locked2 1022 [some 97, some 98, some 99])).map
      (fun w => w.passlen) = some 1023 := by decide
  rw [h1] at e
  exact Option.some.inj e

/-- C15: `poll_all` returns 1 (stop) exactly when `poll` returned at least 1 and the
controlling input has `POLLHUP`, `POLLERR` or `POLLNVAL` set (the bits of
`POLLFLAGS & ~POLLIN`); it then returns the state it was given, so neither
`directkey` nor any per-slot step has run. In every other case every value it
returns is 0 (continue), and it does return 0 from a state that satisfies the
display-cursor predicate when the input dispatch does not read NUL after the escape
byte. -/
theorem C15_poll_all_stop_iff (cfg : Config) (s : World) (p : PollResult) :
    ((1 ≤ p.ret ∧ stdin_terminal p) → poll_all cfg s p = some (1, s)) ∧
    (∀ s1, poll_all cfg s p = some (1, s1) → 1 ≤ p.ret ∧ stdin_terminal p) ∧
    (¬ (1 ≤ p.ret ∧ stdin_terminal p) → ∀ r s1, poll_all cfg s p = some (r, s1) → r = 0) ∧
    (¬ (1 ≤ p.ret ∧ stdin_terminal p) → 1 ≤ NTAGS cfg → cursor_ok cfg s →
      esc_nul cfg s = false → ∃ s1, poll_all cfg s p = some (0, s1)) := by
  have key : ¬ (1 ≤ p.ret ∧ stdin_terminal p) →
      ∀ r s1, poll_all cfg s p = some (r, s1) → r = 0 := by
    intro hn
    by_cases h1 : 1 ≤ p.ret
    · have h2 : ¬ stdin_terminal p := fun h => hn ⟨h1, h⟩
      rw [poll_all_run cfg s p h1 h2]
      intro r s1 h
      cases hd : (if p.revents0 &&& POLLIN ≠ 0 then directkey cfg s else some s) with
      | none => rw [hd] at h; cases h
      | some w =>
        rw [hd] at h
        cases h
        rfl
    · rw [poll_all_idle cfg s p (by omega)]
      exact fun r s1 h => by cases h; rfl
  refine ⟨fun h => poll_all_stop cfg s p h.1 h.2, fun s1 h => ?_, key, fun hn hT hc hnul => ?_⟩
  · by_contra hn
    have := key hn 1 s1 h
    exact absurd this (by decide)
  · obtain ⟨r, s1, h, -⟩ := poll_all_returns cfg s p hT hc hnul
    have hr := key hn r s1 h
    subst hr
    exact ⟨s1, h⟩

/-- Witness of C15 on `cfg2`: a hangup on the controlling input stops the loop. -/
theorem C15_poll_all_stop_iff_witness :
    poll_all cfg2 (world2 [0, 1] false 0 [some 97])
      { ret := 2, revents0 := 17, revents := fun _ => 1 }
      = some (1, world2 [0, 1] false 0 [some 97]) :=
  (C15_poll_all_stop_iff cfg2 (world2 [0, 1] false 0 [some 97])
    { ret := 2, revents0 := 17, revents := fun _ => 1 }).1
    ⟨by decide, by unfold stdin_terminal; decide⟩

end Fbpad
